import Mathlib

/-!
# hubspot-client: the request builder of `main.go`

A shallow embedding of the Go package `hubspot_client` (one file, `main.go`) and
theorems about it.

Conventions of the embedding.

* Go `string` values are Lean `String`s; where Go works on the bytes of a string
  (`url.QueryEscape`, the ordering of keys in `url.Values.Encode`) the model
  works on the UTF-8 bytes of the Lean string.
* `[]byte` is `List UInt8`; `time.Duration` is an `Int` number of nanoseconds.
* `map[string][]string` (`url.Values`, `http.Header`) is an association list that
  holds every key once; the operations of the model keep it so.
* The methods have pointer receivers and mutate `*p`.  The model passes the
  `Request` value explicitly and returns the updated value.
* The standard library is not part of the repository.  The few library functions
  the package calls are modelled after their documented behaviour, each in the
  namespace of its Go package (`url`, `bytes`, `http`, `strconv`, `io`), and each
  says so in its doc comment.  Three collaborators stay parameters of the model:
  `url.Parse` (as `urlParse`), `json.Marshal` (as `marshal`) and the
  HTTP transport behind `client.Do` (as `client`).
* Everything `Request()` does to the outside world is recorded, in order, in a
  trace of `Event`s: lines printed, `time.Sleep` calls and `client.Do` calls.
-/

set_option linter.dupNamespace false

namespace HubspotClient

/-! ## Strings and bytes -/

/-- The bytes of a Go string: the UTF-8 encoding of its characters. -/
def bytesOf (s : String) : List UInt8 :=
  s.data.flatMap String.utf8EncodeChar

/-- Go compares strings byte by byte; this is `a <= b` on the byte sequences. -/
def bytesLE : List UInt8 → List UInt8 → Bool
  | [], _ => true
  | _ :: _, [] => false
  | a :: as, b :: bs => a < b || (a == b && bytesLE as bs)

/-- Go string comparison `a <= b`. -/
def stringLE (a b : String) : Prop :=
  bytesLE (bytesOf a) (bytesOf b) = true

instance : DecidableRel stringLE :=
  fun a b => inferInstanceAs (Decidable (bytesLE (bytesOf a) (bytesOf b) = true))

/-- A Go `error` value.  Errors made by `http.NewRequest` keep their cause; errors
that come from a collaborator (transport, serializer, response stream) carry the
message only. -/
inductive GoError where
  /-- The error `net/http: invalid method %q`. -/
  | invalidMethod (method : String)
  /-- The `*url.Error` of a URL that `url.Parse` rejects. -/
  | parse (rawURL : String)
  /-- An error of a collaborator. -/
  | message (msg : String)
  deriving DecidableEq, Repr

/-! ## `strconv` -/

namespace strconv

/-- Model of `strconv.Itoa`: the decimal form of an integer. -/
def Itoa (n : Int) : String :=
  toString n

end strconv

/-! ## `net/url` -/

namespace url

/-- Model of `shouldEscape(c, encodeQueryComponent)` of `net/url`: letters,
digits and `-`, `_`, `.`, `~` are kept, every other byte is escaped. -/
def shouldEscape (c : UInt8) : Bool :=
  if (97 ≤ c && c ≤ 122) || (65 ≤ c && c ≤ 90) || (48 ≤ c && c ≤ 57) then false
  else if c == 45 || c == 95 || c == 46 || c == 126 then false
  else true

/-- The table `upperhex` of `net/url`. -/
def upperhex (n : Nat) : Char :=
  "0123456789ABCDEF".data.getD n '0'

/-- What `escape(s, encodeQueryComponent)` writes for one byte of `s`. -/
def escapeByte (c : UInt8) : List Char :=
  if c == 32 then ['+']
  else if shouldEscape c then ['%', upperhex (c.toNat / 16), upperhex (c.toNat % 16)]
  else [Char.ofNat c.toNat]

/-- Model of `url.QueryEscape`. -/
def QueryEscape (s : String) : String :=
  String.mk ((bytesOf s).flatMap escapeByte)

/-- Model of `url.Userinfo`. -/
structure Userinfo where
  username : String
  password : String
  passwordSet : Bool
  deriving DecidableEq, Repr

/-- Model of `url.URL`, the parsed form of a URL; a nil `User` is `none`. -/
structure URL where
  Scheme : String
  Opaque : String
  User : Option Userinfo
  Host : String
  Path : String
  RawPath : String
  OmitHost : Bool
  ForceQuery : Bool
  RawQuery : String
  Fragment : String
  RawFragment : String
  deriving DecidableEq, Repr

/-- Model of `url.Values`, a `map[string][]string`. -/
abbrev Values := List (String × List String)

/-- The literal `url.Values{}`: the empty map. -/
def Values.empty : Values := []

/-- The map read `v[key]`: the values of `key`, none if the key is absent. -/
def Values.Get (v : Values) (key : String) : List String :=
  match v.lookup key with
  | some vs => vs
  | none => []

/-- The map write `v[key] = vs`. -/
def Values.Put : Values → String → List String → Values
  | [], key, vs => [(key, vs)]
  | (k, ws) :: rest, key, vs =>
    if k = key then (k, vs) :: rest else (k, ws) :: Values.Put rest key vs

/-- Model of `url.Values.Add`: `v[key] = append(v[key], value)`. -/
def Values.Add (v : Values) (key value : String) : Values :=
  v.Put key (v.Get key ++ [value])

/-- The keys of the map in the order `Encode` visits them: sorted. -/
def Values.sortedKeys (v : Values) : List String :=
  (v.map Prod.fst).insertionSort stringLE

/-- Model of `url.Values.Encode`: for every key in sorted order and every value of
the key in insertion order, `QueryEscape(key) + "=" + QueryEscape(value)`, with
`&` written before an item whenever the buffer is not empty. -/
def Values.Encode (v : Values) : String :=
  if v.length = 0 then ""
  else
    v.sortedKeys.foldl
      (fun buf k =>
        let vs := v.Get k
        let keyEscaped := QueryEscape k
        vs.foldl
          (fun buf x =>
            (if buf.length > 0 then buf ++ "&" else buf) ++ keyEscaped ++ "=" ++ QueryEscape x)
          buf)
      ""

end url

/-! ## `bytes`, `time`, `io` -/

namespace bytes

/-- Model of `bytes.Reader`: the slice `s` that is read and the read offset `i`.
Reading moves the offset; nothing in the package ever moves it back. -/
structure Reader where
  s : List UInt8
  i : Nat
  deriving DecidableEq, Repr

/-- Model of `bytes.NewReader`: a reader at offset 0. -/
def NewReader (b : List UInt8) : Reader :=
  { s := b, i := 0 }

/-- Model of `(*bytes.Reader).Len`: the number of unread bytes. -/
def Reader.Len (r : Reader) : Nat :=
  if r.i ≥ r.s.length then 0 else r.s.length - r.i

/-- The bytes a consumer still gets from the reader: the unread part. -/
def Reader.unread (r : Reader) : List UInt8 :=
  r.s.drop r.i

/-- The reader after a consumer has read `n` bytes from it (all of the unread
part when fewer than `n` bytes are left). -/
def Reader.advance (r : Reader) (n : Nat) : Reader :=
  { r with i := r.i + min n r.Len }

end bytes

namespace time

/-- Model of `time.Duration`: a number of nanoseconds. -/
abbrev Duration := Int

/-- The constant `time.Second`. -/
def Second : Duration := 1000000000

end time

namespace io

/-- Model of the `io.ReadCloser` in `response.Body`: the bytes that reading
delivers, the error (if any) that ends the reading, and the error (if any) that
`Close` returns. -/
structure ReadCloser where
  data : List UInt8
  readErr : Option GoError
  closeErr : Option GoError
  deriving DecidableEq, Repr

/-- Model of `io.ReadAll`: the bytes read and the error, `nil` at a clean EOF. -/
def ReadAll (r : ReadCloser) : List UInt8 × Option GoError :=
  (r.data, r.readErr)

/-- Model of `Close` on the response body. -/
def ReadCloser.Close (r : ReadCloser) : Option GoError :=
  r.closeErr

end io

/-! ## `net/http` -/

namespace http

/-- Model of `http.Header`, a `map[string][]string`. -/
abbrev Header := List (String × List String)

/-- Model of `http.Header.Set`: `h[key] = []string{value}`.  The three keys the
package sets are already in canonical MIME form, so the canonicalization of the
key is the identity on them. -/
def Header.Set (h : Header) (key value : String) : Header :=
  url.Values.Put h key [value]

/-- The map read `h[key]`. -/
def Header.Values (h : Header) (key : String) : List String :=
  url.Values.Get h key

/-- Model of `httpguts.IsTokenRune`: the characters of an HTTP token. -/
def isTokenRune (c : Char) : Bool :=
  c.toNat < 128 &&
    (c.isAlphanum || "!#$%&*+-.^_|~".data.contains c || c.toNat == 39 || c.toNat == 96)

/-- Model of `validMethod` of `net/http`: a non-empty token. -/
def validMethod (method : String) : Bool :=
  method.length > 0 && method.data.all isTokenRune

/-- The field `Body` of an `*http.Request` as the package can build it: `nil`,
`http.NoBody`, or `io.NopCloser` over the `*bytes.Reader` it was given.  The
reader is shared with the builder (`p.JsonBody` is the same pointer); the value
kept here is its current state. -/
inductive Body where
  | nil
  | NoBody
  | reader (r : bytes.Reader)
  deriving DecidableEq, Repr

/-- Model of `http.Request`, with the fields `http.NewRequest` fills in from its
arguments and the package sets: `URL` is the parsed URL and `Host` its host. -/
structure Request where
  Method : String
  URL : url.URL
  Header : Header
  Body : Body
  ContentLength : Int
  Host : String
  deriving DecidableEq, Repr

/-- The body bytes a transport gets when it reads the body of the request now. -/
def Request.bodyBytes (req : Request) : List UInt8 :=
  match req.Body with
  | .reader r => r.unread
  | _ => []

/-- The request after a transport has read `n` bytes of its body. -/
def Request.consume (req : Request) (n : Nat) : Request :=
  match req.Body with
  | .reader r => { req with Body := .reader (r.advance n) }
  | _ => req

/-- Model of `http.Response`. -/
structure Response where
  Status : String
  StatusCode : Int
  Header : Header
  ContentLength : Int
  Body : io.ReadCloser
  deriving DecidableEq, Repr

/-- Model of `strings.LastIndex(s, sep)` for a separator of one character: the
position of its last occurrence, `-1` when there is none. -/
def lastIndex (s : String) (sep : Char) : Int :=
  (s.data.foldl
    (fun (acc : Int × Int) c => (acc.1 + 1, if c = sep then acc.1 else acc.2)) (0, -1)).2

/-- Model of `hasPort` of `net/http`. -/
def hasPort (s : String) : Bool :=
  lastIndex s ':' > lastIndex s ']'

/-- Model of `removeEmptyPort` of `net/http`: `strings.TrimSuffix(host, ":")` for
a host with a port. -/
def removeEmptyPort (host : String) : String :=
  if hasPort host then
    if host.data.getLast? = some ':' then String.mk host.data.dropLast else host
  else host

/-- Model of `http.NewRequest(method, url, body)` with `body` either `nil` or a
`*bytes.Reader`, over `url.Parse` (`urlParse`).  An empty method means `GET`; a
method that is not a token gives an error and no request, and so does a URL that
`url.Parse` rejects, with the error of `url.Parse`.  The URL of the request is
the parsed URL with an empty port removed from its host.  For a reader,
`ContentLength` is `Len()` of the reader at this moment, and a reader with
nothing left to read gives `http.NoBody`. -/
def NewRequest (urlParse : String → Except GoError url.URL) (method url : String)
    (body : Option bytes.Reader) : Except GoError Request :=
  let method := if method = "" then "GET" else method
  if !validMethod method then .error (.invalidMethod method)
  else
    match urlParse url with
    | .error err => .error err
    | .ok u =>
      let u := { u with Host := removeEmptyPort u.Host }
      match body with
      | none =>
        .ok { Method := method, URL := u, Header := [], Body := .nil, ContentLength := 0,
              Host := u.Host }
      | some v =>
        if v.Len = 0 then
          .ok { Method := method, URL := u, Header := [], Body := .NoBody, ContentLength := 0,
                Host := u.Host }
        else
          .ok { Method := method, URL := u, Header := [], Body := .reader v,
                ContentLength := v.Len, Host := u.Host }

/-- What one call of `client.Do(req)` does: how many bytes of the request body it
read, and the response or the transport error it returned. -/
structure RoundTrip where
  read : Nat
  result : Except GoError Response

/-- The transport behind `client.Do`: what the call number `n` (counted from 0)
does with the request it is handed. -/
abbrev Transport := Nat → Request → RoundTrip

end http

/-! ## Effects and outcomes -/

/-- One observable effect of the package. -/
inductive Event where
  /-- The call `fmt.Println(s)` of a string. -/
  | Println (s : String)
  /-- The call `fmt.Println(n)` of an integer. -/
  | PrintlnInt (n : Int)
  /-- The call `fmt.Println(err)`. -/
  | PrintlnError (err : GoError)
  /-- The line `Request error: ...` on standard error. -/
  | RequestError (err : GoError)
  /-- The line `Retrying in ...` on standard error. -/
  | Retrying (backoff : time.Duration)
  /-- The call `time.Sleep(d)`. -/
  | Sleep (d : time.Duration)
  /-- The call `client.Do(req)`, with the request as it is at the call. -/
  | Do (req : http.Request)
  /-- The message logged by `log.Fatalln(err)` or `log.Fatalf`. -/
  | Fatalln (err : GoError)
  deriving DecidableEq, Repr

/-- How a call ends. -/
inductive Outcome where
  /-- The call returns these bytes. -/
  | returned (body : List UInt8)
  /-- The call ended the process in `log.Fatalln(err)`. -/
  | fatal (err : GoError)
  /-- The call left through `panic(err)`. -/
  | panic (err : GoError)
  /-- The call left through the runtime panic of a nil pointer dereference. -/
  | nilDereference
  deriving DecidableEq, Repr

/-- The requests handed to `client.Do`, in order. -/
def sent : List Event → List http.Request
  | [] => []
  | .Do req :: rest => req :: sent rest
  | _ :: rest => sent rest

/-- The total time spent in `time.Sleep`. -/
def slept : List Event → time.Duration
  | [] => 0
  | .Sleep d :: rest => d + slept rest
  | _ :: rest => slept rest

/-! ## The package -/

/-- The variable `backoffSchedule`. -/
def backoffSchedule : List time.Duration :=
  [1 * time.Second, 3 * time.Second, 10 * time.Second]

/-- The struct `Request`.  A nil `JsonBody` is `none`; nil `Headers` and nil
`Content` are the empty map and the empty slice. -/
structure Request where
  HSBaseUrl : String
  HSToken : String
  RequestMethod : String
  UriEndPoint : String
  Params : url.Values
  JsonBody : Option bytes.Reader
  Status : String
  StatusCode : Int
  Headers : http.Header
  Content : List UInt8
  ContentLength : Int
  Error : Bool
  Message : String
  deriving DecidableEq, Repr

/-- The function `Init`. -/
def Init (hsBaseUrl hsToken : String) : Request :=
  { HSBaseUrl := hsBaseUrl
    HSToken := hsToken
    RequestMethod := "GET"
    UriEndPoint := ""
    Params := url.Values.empty
    JsonBody := none
    Status := ""
    StatusCode := 0
    Headers := []
    Content := []
    ContentLength := 0
    Error := false
    Message := "" }

/-- The method `Method`. -/
def Request.Method (p : Request) (method : String) : Request :=
  { p with RequestMethod := method }

/-- The method `EndPoint`. -/
def Request.EndPoint (p : Request) (endpoint : String) : Request :=
  { p with UriEndPoint := endpoint }

/-- The method `QueryParams`.  The argument lists the entries of the Go map in
the order the `range` loop visits them. -/
def Request.QueryParams (p : Request) (queryParams : List (String × String)) : Request :=
  queryParams.foldl (fun p kv => { p with Params := p.Params.Add kv.1 kv.2 }) p

/-- The method `Page`. -/
def Request.Page (p : Request) (page : Int) : Request :=
  { p with Params := p.Params.Add "page" (strconv.Itoa page) }

/-- The method `PageSize`. -/
def Request.PageSize (p : Request) (pageSize : Int) : Request :=
  { p with Params := p.Params.Add "pageSize" (strconv.Itoa pageSize) }

/-- The method `Properties`. -/
def Request.Properties (p : Request) (properties : String) : Request :=
  { p with Params := p.Params.Add "properties" properties }

/-- The method `Associations`. -/
def Request.Associations (p : Request) (associations : String) : Request :=
  { p with Params := p.Params.Add "associations" associations }

/-- The method `Json`, over the serializer `marshal` (`json.Marshal`).  When the
serializer fails the method ends the process in `log.Fatalf`: the result is the
error and there is no builder to go on with. -/
def Request.Json {α : Type} (marshal : α → Except GoError (List UInt8)) (p : Request)
    (body : α) : Except GoError Request :=
  match marshal body with
  | .error err => .error err
  | .ok marshalled => .ok { p with JsonBody := some (bytes.NewReader marshalled) }

/-- The method `GetStatus`. -/
def Request.GetStatus (p : Request) : Int :=
  p.StatusCode

/-- The function `CreateRequest`: the URL, and the line it prints. -/
def CreateRequest (requestString hsBaseUrl : String) : String × List Event :=
  (hsBaseUrl ++ "/" ++ requestString, [.Println (hsBaseUrl ++ "/" ++ requestString)])

/-- The function `GetRequest`.  Of the Go pair `(req, err)` exactly one is
non-nil: `.ok req` is `(req, nil)` and `.error err` is `(nil, err)`. -/
def GetRequest (urlParse : String → Except GoError url.URL) (requestMethod requestString hsBaseUrl : String) :
    Except GoError http.Request × List Event :=
  let (target, out) := CreateRequest requestString hsBaseUrl
  (http.NewRequest urlParse requestMethod target none, out)

/-- The function `BodyRequest`. -/
def BodyRequest (urlParse : String → Except GoError url.URL) (requestMethod requestString hsBaseUrl : String)
    (body : bytes.Reader) : Except GoError http.Request × List Event :=
  let (target, out) := CreateRequest requestString hsBaseUrl
  match http.NewRequest urlParse requestMethod target (some body) with
  | .error err => (.error err, out ++ [.PrintlnError err])
  | .ok req => (.ok req, out)

/-- The variables of the retry loop of `Request()`: the request (whose body
reader the transport moves), `response`, `err`, the number of `client.Do` calls
made on the transport so far, and the effects so far. -/
structure LoopState where
  req : http.Request
  response : Option http.Response
  err : Option GoError
  calls : Nat
  trace : List Event

/-- The loop `for _, backoff := range backoffSchedule` of `Request()`, over the
entries of the schedule that are left. -/
def retryLoop (client : http.Transport) : List time.Duration → LoopState → LoopState
  | [], st => st
  | backoff :: rest, st =>
    let rt := client st.calls st.req
    match rt.result with
    | .ok response =>
      { req := st.req.consume rt.read
        response := some response
        err := none
        calls := st.calls + 1
        trace := st.trace ++ [.Do st.req] }
    | .error err =>
      retryLoop client rest
        { req := st.req.consume rt.read
          response := none
          err := some err
          calls := st.calls + 1
          trace := st.trace ++ [.Do st.req, .RequestError err, .Retrying backoff, .Sleep backoff] }

/-- What one call of `Request()` gives: the builder afterwards, the effects in
order, and how the call ended. -/
structure Execution where
  p : Request
  trace : List Event
  outcome : Outcome
  deriving DecidableEq, Repr

/-- Lines 100 to 105 of `Request()`: the local variable `requestString`, the
endpoint followed by `?` and the encoded query string when that is not empty. -/
def Request.requestString (p : Request) : String :=
  let queryParams := p.Params.Encode
  if queryParams.length > 0 then p.UriEndPoint ++ "?" ++ queryParams else p.UriEndPoint

/-- Lines 108 to 117 of `Request()`: the construction of `req`, by `GetRequest`
and then, when a JSON body is set, again by `BodyRequest`.  An error is printed
and nothing else is done about it. -/
def Request.construct (urlParse : String → Except GoError url.URL) (p : Request) :
    Except GoError http.Request × List Event :=
  let (req, out) := GetRequest urlParse p.RequestMethod p.requestString p.HSBaseUrl
  let out :=
    match req with
    | .error err => out ++ [Event.PrintlnError err]
    | .ok _ => out
  match p.JsonBody with
  | none => (req, out)
  | some body =>
    let (req, out2) := BodyRequest urlParse p.RequestMethod p.requestString p.HSBaseUrl body
    match req with
    | .error err => (req, out ++ out2 ++ [Event.PrintlnError err])
    | .ok _ => (req, out ++ out2)

/-- Lines 119 to 121 of `Request()`: the three `req.Header.Set` calls. -/
def Request.setHeaders (p : Request) (req : http.Request) : http.Request :=
  let req := { req with Header := req.Header.Set "Content-Type" "application/json" }
  let req := { req with Header := req.Header.Set "Accept" "application/json" }
  { req with Header := req.Header.Set "Authorization" ("Bearer " ++ p.HSToken) }

/-- The builder sees what the transport did to the body reader it shares with
the request. -/
def Request.syncBody (p : Request) (req : http.Request) : Request :=
  match req.Body with
  | .reader r => { p with JsonBody := some r }
  | _ => p

/-- Lines 136 to 166 of `Request()`: what follows the retry loop.  A transport
error left in `err` ends the process in `log.Fatalln`.  Otherwise `err` is nil
(so the check of line 156 never fires), the response fields are stored and
printed and the body is read and stored; a read error panics.  The deferred `Close` runs on the way out, also out of the panic, and an
error of `Close` ends the process in `log.Fatalln`. -/
def Request.finish (p : Request) (st : LoopState) : Execution :=
  let p := p.syncBody st.req
  match st.err with
  | some err => { p := p, trace := st.trace ++ [Event.Fatalln err], outcome := Outcome.fatal err }
  | none =>
    match st.response with
    | none => { p := p, trace := st.trace, outcome := Outcome.nilDereference }
    | some response =>
      let p := { p with
        Status := response.Status
        StatusCode := response.StatusCode
        ContentLength := response.ContentLength
        Headers := response.Header }
      let out := st.trace ++ [Event.Println p.Status, Event.PrintlnInt p.StatusCode,
        Event.PrintlnInt p.ContentLength, Event.Println p.RequestMethod]
      let (jsonDataFromHttp, err) := io.ReadAll response.Body
      let p := { p with Content := jsonDataFromHttp }
      let outcome :=
        match err with
        | some err => Outcome.panic err
        | none => Outcome.returned jsonDataFromHttp
      match response.Body.Close with
      | some err => { p := p, trace := out ++ [Event.Fatalln err], outcome := Outcome.fatal err }
      | none => { p := p, trace := out, outcome := outcome }

/-- The method `Request`, over `url.Parse` (`urlParse`) and the transport (`client`,
on which `calls` calls were made before).  When the construction gave no request,
`req.Header.Set` dereferences the nil `req`. -/
def Request.Request (urlParse : String → Except GoError url.URL) (client : http.Transport) (calls : Nat)
    (p : Request) : Execution :=
  match p.construct urlParse with
  | (.error _, out) => { p := p, trace := out, outcome := Outcome.nilDereference }
  | (.ok req, out) =>
    p.finish (retryLoop client backoffSchedule
      { req := p.setHeaders req, response := none, err := none, calls := calls, trace := out })

/-! ## Sequences of configuration calls -/

/-- One configuration call on the builder, with its argument; `α` is the type of
the values given to `Json`. -/
inductive Config (α : Type) where
  | Method (method : String)
  | EndPoint (endpoint : String)
  | QueryParams (queryParams : List (String × String))
  | Page (page : Int)
  | PageSize (pageSize : Int)
  | Properties (properties : String)
  | Associations (associations : String)
  | Json (body : α)

/-- The builder after one configuration call; the error of a `Json` call that
ended the process. -/
def Config.apply {α : Type} (marshal : α → Except GoError (List UInt8)) (p : Request) :
    Config α → Except GoError Request
  | .Method method => .ok (p.Method method)
  | .EndPoint endpoint => .ok (p.EndPoint endpoint)
  | .QueryParams queryParams => .ok (p.QueryParams queryParams)
  | .Page page => .ok (p.Page page)
  | .PageSize pageSize => .ok (p.PageSize pageSize)
  | .Properties properties => .ok (p.Properties properties)
  | .Associations associations => .ok (p.Associations associations)
  | .Json body => p.Json marshal body

/-- The builder after a chain of configuration calls, made in order. -/
def configure {α : Type} (marshal : α → Except GoError (List UInt8)) :
    Request → List (Config α) → Except GoError Request
  | p, [] => .ok p
  | p, c :: rest =>
    match c.apply marshal p with
    | .error err => .error err
    | .ok q => configure marshal q rest

/-- The key-value pairs a configuration call adds to the query parameters. -/
def Config.added {α : Type} : Config α → List (String × String)
  | .QueryParams queryParams => queryParams
  | .Page page => [("page", strconv.Itoa page)]
  | .PageSize pageSize => [("pageSize", strconv.Itoa pageSize)]
  | .Properties properties => [("properties", properties)]
  | .Associations associations => [("associations", associations)]
  | _ => []

/-- All key-value pairs a chain of configuration calls adds, in the order of the
calls. -/
def added {α : Type} (calls : List (Config α)) : List (String × String) :=
  calls.flatMap Config.added

/-- The value given to the last `Json` call of a chain, `start` when the chain
has no `Json` call. -/
def lastJson {α : Type} (start : Option α) (calls : List (Config α)) : Option α :=
  calls.foldl
    (fun j c =>
      match c with
      | .Json body => some body
      | _ => j)
    start

/-- The argument of the last `EndPoint` call of a chain, `start` when the chain
has no `EndPoint` call. -/
def lastEndPoint {α : Type} (start : String) (calls : List (Config α)) : String :=
  calls.foldl
    (fun e c =>
      match c with
      | .EndPoint endpoint => endpoint
      | _ => e)
    start

/-- The three headers `Request()` sets, for the token `hsToken`. -/
def fixedHeaders (hsToken : String) : http.Header :=
  [("Content-Type", ["application/json"]), ("Accept", ["application/json"]),
    ("Authorization", ["Bearer " ++ hsToken])]

/-- The item of a key-value pair in an encoded query string. -/
def item (kv : String × String) : String :=
  url.QueryEscape kv.1 ++ "=" ++ url.QueryEscape kv.2

/-- The key-value pairs held by a `url.Values`, key by key. -/
def url.Values.pairs (v : url.Values) : List (String × String) :=
  v.flatMap (fun e => e.2.map (fun x => (e.1, x)))

/-- The key-value pairs in the order `Encode` writes them. -/
def url.Values.encodedPairs (v : url.Values) : List (String × String) :=
  v.sortedKeys.flatMap (fun k => (v.Get k).map (fun x => (k, x)))

/-- The pieces of a text between the occurrences of the separator `sep`. -/
def fields (sep : Char) : List Char → List (List Char)
  | [] => [[]]
  | c :: cs =>
    if c = sep then [] :: fields sep cs
    else
      match fields sep cs with
      | [] => [[c]]
      | f :: fs => (c :: f) :: fs

/-- The `&`-separated items of a query string; the empty query string has none. -/
def queryItems (query : String) : List String :=
  if query = "" then [] else (fields '&' query.data).map String.mk

/-- The value of a hexadecimal digit of `upperhex`. -/
def unhex (c : Char) : Nat :=
  "0123456789ABCDEF".data.indexOf c

/-- A decoder for the output of `url.QueryEscape`: `+` is a space, `%XY` is the
byte with the hexadecimal digits `X` and `Y`, any other character is its own
byte. -/
def unescape : List Char → List UInt8
  | [] => []
  | [c] => if c = '+' then [32] else [UInt8.ofNat c.toNat]
  | [c, d] =>
    if c = '+' then 32 :: unescape [d]
    else UInt8.ofNat c.toNat :: unescape [d]
  | c :: d :: e :: rest =>
    if c = '+' then 32 :: unescape (d :: e :: rest)
    else if c = '%' then UInt8.ofNat (unhex d * 16 + unhex e) :: unescape rest
    else UInt8.ofNat c.toNat :: unescape (d :: e :: rest)

/-! ## Transports -/

/-- The transport returns a transport error on its call number `n`, whatever the
request. -/
def failsAt (client : http.Transport) (n : Nat) : Prop :=
  ∀ req, ∃ err, (client n req).result = .error err

/-- The transport returns a response on its call number `n`, whatever the
request. -/
def respondsAt (client : http.Transport) (n : Nat) : Prop :=
  ∀ req, ∃ response, (client n req).result = .ok response

/-- The body of every response the transport returns on its call number `n` is
read to the end and closed without an error. -/
def cleanAt (client : http.Transport) (n : Nat) : Prop :=
  ∀ req response, (client n req).result = .ok response →
    response.Body.readErr = none ∧ response.Body.closeErr = none

/-! ## Concrete inputs -/

/-- The URL `https://api.hubapi.com/crm/v3/objects/contacts`, parsed. -/
def contactsURL : url.URL :=
  { Scheme := "https"
    Opaque := ""
    User := none
    Host := "api.hubapi.com"
    Path := "/crm/v3/objects/contacts"
    RawPath := ""
    OmitHost := false
    ForceQuery := false
    RawQuery := ""
    Fragment := ""
    RawFragment := "" }

/-- A stand-in for `url.Parse` at the concrete inputs below: the value of
`url.Parse` at the four URLs they use.  `url.Parse` cuts the text after the first
`#` off as the fragment before it looks for a query, and it keeps an empty port
in the host.  At every other string the stand-in gives an error. -/
def sampleParse (rawURL : String) : Except GoError url.URL :=
  if rawURL = "https://api.hubapi.com/crm/v3/objects/contacts" then .ok contactsURL
  else if rawURL =
      "https://api.hubapi.com/crm/v3/objects/contacts?limit=10&limit=10&page=5&page=6&properties=email%2Cname&q=a+b"
  then
    .ok { contactsURL with
      RawQuery := "limit=10&limit=10&page=5&page=6&properties=email%2Cname&q=a+b" }
  else if rawURL = "https://api.hubapi.com/a#frag?page=5" then
    .ok { contactsURL with Path := "/a", Fragment := "frag?page=5" }
  else if rawURL = "https://api.hubapi.com:/crm/v3/objects/contacts" then
    .ok { contactsURL with Host := "api.hubapi.com:" }
  else .error (.parse rawURL)

/-- A transport error. -/
def refused : GoError :=
  .message "dial tcp: connection refused"

/-- A response with a body that is read and closed without an error. -/
def sampleResponse (code : Int) (status : String) (body : List UInt8) : http.Response :=
  { Status := status
    StatusCode := code
    Header := [("Content-Type", ["application/json"])]
    ContentLength := body.length
    Body := { data := body, readErr := none, closeErr := none } }

/-- A transport that fails on its first `n` calls, without touching the request
body, and from then on reads the whole request body and returns `response`. -/
def failThenRespond (n : Nat) (response : http.Response) : http.Transport :=
  fun k req =>
    if k < n then { read := 0, result := .error refused }
    else { read := req.bodyBytes.length, result := .ok response }

/-- A builder for `GET https://api.hubapi.com/crm/v3/objects/contacts`. -/
def contacts : Request :=
  (Init "https://api.hubapi.com" "secret").EndPoint "crm/v3/objects/contacts"

/-- The builder `contacts` after `Method("G T")`: a method that is not a token. -/
def badMethod : Request :=
  contacts.Method "G T"

/-- The request `Request()` constructs for `contacts`, before the headers are
set. -/
def contactsRequest : http.Request :=
  { Method := "GET"
    URL := contactsURL
    Header := []
    Body := http.Body.nil
    ContentLength := 0
    Host := "api.hubapi.com" }

/-- The error of a peer that takes the request and drops the connection. -/
def connectionReset : GoError :=
  .message "read: connection reset by peer"

/-- A transport that reads the whole request body and then fails, on every
call. -/
def readThenFail : http.Transport :=
  fun _ req => { read := req.bodyBytes.length, result := .error connectionReset }

/-- The chain `EndPoint("a#frag")`, `Page(5)`. -/
def fragmentChain : List (Config Bool) :=
  [Config.EndPoint "a#frag", Config.Page 5]

/-- The builder after `fragmentChain`. -/
def fragmentBuilder : Request :=
  { Init "https://api.hubapi.com" "secret" with
    UriEndPoint := "a#frag"
    Params := [("page", ["5"])] }

/-- The chain `EndPoint("crm/v3/objects/contacts")` on a base URL with an empty
port. -/
def emptyPortChain : List (Config Bool) :=
  [Config.EndPoint "crm/v3/objects/contacts"]

/-- The builder after `emptyPortChain` on the base URL `https://api.hubapi.com:`. -/
def emptyPortBuilder : Request :=
  (Init "https://api.hubapi.com:" "secret").EndPoint "crm/v3/objects/contacts"

/-- The error of a body stream that ends early. -/
def unexpectedEOF : GoError :=
  .message "unexpected EOF"

/-- A response whose body delivers two bytes and then fails. -/
def brokenResponse (code : Int) (status : String) : http.Response :=
  { Status := status
    StatusCode := code
    Header := []
    ContentLength := 100
    Body := { data := [123, 34], readErr := some unexpectedEOF, closeErr := none } }

/-- The serializer `json.Marshal` on Go booleans: `true` and `false`. -/
def marshalBool (b : Bool) : Except GoError (List UInt8) :=
  .ok (bytesOf (if b then "true" else "false"))

/-- The decoder `json.Unmarshal` into a Go boolean. -/
def unmarshalBool (b : List UInt8) : Option Bool :=
  if b = bytesOf "true" then some true
  else if b = bytesOf "false" then some false
  else none

/-- The builder `contacts` after `Method("POST")` and `Json(true)`. -/
def posted : Request :=
  { contacts.Method "POST" with JsonBody := some (bytes.NewReader [116, 114, 117, 101]) }

/-- A chain of configuration calls with a repeated key and a repeated pair. -/
def sampleChain : List (Config Bool) :=
  [Config.EndPoint "crm/v3/objects/contacts", Config.QueryParams [("limit", "10"), ("q", "a b")],
    Config.Page 5, Config.QueryParams [("limit", "10")], Config.Properties "email,name",
    Config.Page 6]

/-- The builder after `sampleChain`. -/
def sampleBuilder : Request :=
  { Init "https://api.hubapi.com" "secret" with
    UriEndPoint := "crm/v3/objects/contacts"
    Params := [("limit", ["10", "10"]), ("q", ["a b"]), ("page", ["5", "6"]),
      ("properties", ["email,name"])] }

/-- A chain of configuration calls that sets a JSON body twice. -/
def postChain : List (Config Bool) :=
  [Config.EndPoint "crm/v3/objects/contacts", Config.Json false, Config.Method "POST",
    Config.Json true]

/-! ## Query parameters -/

theorem Values_Get_cons (k key : String) (ws : List String) (rest : url.Values) :
    url.Values.Get ((k, ws) :: rest) key = if key = k then ws else url.Values.Get rest key := by
  unfold url.Values.Get
  by_cases h : key = k
  · subst h; simp [List.lookup]
  · have hb : (key == k) = false := by simpa using h
    simp [List.lookup, hb, h]

theorem Values_Add_pairs (v : url.Values) (key value : String) :
    (v.Add key value).pairs.Perm (v.pairs ++ [(key, value)]) := by
  unfold url.Values.Add
  induction v with
  | nil => simp [url.Values.Get, url.Values.Put, url.Values.pairs]
  | cons e rest ih =>
    obtain ⟨k, ws⟩ := e
    rw [Values_Get_cons]
    by_cases h : key = k
    · subst h
      simp only [url.Values.Put, if_true, url.Values.pairs, List.flatMap_cons, List.map_append,
        List.map_cons, List.map_nil, List.append_assoc]
      exact List.Perm.append_left _ List.perm_append_comm
    · have h2 : ¬ k = key := fun e => h e.symm
      simp only [h, h2, url.Values.Put, if_false, url.Values.pairs, List.flatMap_cons,
        List.append_assoc]
      exact List.Perm.append_left _ ih

theorem Values_Put_keys (v : url.Values) (key : String) (vs : List String) :
    (v.Put key vs).map Prod.fst =
      if key ∈ v.map Prod.fst then v.map Prod.fst else v.map Prod.fst ++ [key] := by
  induction v with
  | nil => simp [url.Values.Put]
  | cons e rest ih =>
    obtain ⟨k, ws⟩ := e
    by_cases h : k = key
    · subst h; simp [url.Values.Put]
    · have h2 : ¬ key = k := fun e => h e.symm
      simp only [url.Values.Put, h, if_false, List.map_cons, ih, List.mem_cons, h2, false_or]
      split <;> simp

theorem Values_Add_nodup (v : url.Values) (key value : String)
    (h : (v.map Prod.fst).Nodup) : ((v.Add key value).map Prod.fst).Nodup := by
  unfold url.Values.Add
  rw [Values_Put_keys]
  split
  · exact h
  · rename_i hk
    exact List.Nodup.append h (List.nodup_singleton _) (by simpa using hk)

/-- The step of the two loops of `Encode`, on a key-value pair. -/
theorem Encode_eq_foldl (v : url.Values) :
    v.Encode = v.encodedPairs.foldl
      (fun buf kv => (if buf.length > 0 then buf ++ "&" else buf) ++ url.QueryEscape kv.1 ++ "=" ++
        url.QueryEscape kv.2) "" := by
  unfold url.Values.Encode url.Values.encodedPairs
  by_cases h : v.length = 0
  · have hv : v = [] := List.length_eq_zero.mp h
    subst hv
    simp [url.Values.sortedKeys]
  · simp only [h, if_false]
    generalize v.sortedKeys = ks
    generalize ("" : String) = acc
    induction ks generalizing acc with
    | nil => simp
    | cons k ks ih =>
      simp only [List.foldl_cons, List.flatMap_cons, List.foldl_append, List.foldl_map]
      exact ih _

theorem foldl_items_go (l : List (String × String)) (acc : String) (hacc : acc.length > 0) :
    l.foldl
      (fun buf kv => (if buf.length > 0 then buf ++ "&" else buf) ++ url.QueryEscape kv.1 ++ "=" ++
        url.QueryEscape kv.2) acc
      = String.intercalate.go acc "&" (l.map item) := by
  induction l generalizing acc with
  | nil => simp [String.intercalate.go]
  | cons kv l ih =>
    simp only [List.foldl_cons, List.map_cons, String.intercalate.go, hacc, if_true]
    have e : acc ++ "&" ++ url.QueryEscape kv.1 ++ "=" ++ url.QueryEscape kv.2
        = acc ++ "&" ++ item kv := by
      simp [item, String.append_assoc]
    rw [e]
    apply ih
    simp only [String.length_append]
    omega

theorem item_length_pos (kv : String × String) : (item kv).length > 0 := by
  have h1 : ("=" : String).length = 1 := rfl
  simp only [item, String.length_append, h1]
  omega

theorem Encode_eq_intercalate (v : url.Values) :
    v.Encode = "&".intercalate (v.encodedPairs.map item) := by
  rw [Encode_eq_foldl]
  cases h : v.encodedPairs with
  | nil => simp [String.intercalate]
  | cons kv l =>
    simp only [List.foldl_cons, List.map_cons, String.intercalate]
    have e : (if ("" : String).length > 0 then "" ++ "&" else "") ++ url.QueryEscape kv.1 ++ "=" ++
        url.QueryEscape kv.2 = item kv := by
      simp [item]
    rw [e]
    exact foldl_items_go l (item kv) (item_length_pos kv)

theorem Values_Get_of_mem (v : url.Values) (h : (v.map Prod.fst).Nodup) (e : String × List String)
    (he : e ∈ v) : v.Get e.1 = e.2 := by
  induction v with
  | nil => simp at he
  | cons a rest ih =>
    obtain ⟨k, ws⟩ := a
    rw [Values_Get_cons]
    simp only [List.map_cons, List.nodup_cons] at h
    rcases List.mem_cons.mp he with rfl | hm
    · simp
    · have hne : ¬ e.1 = k := by
        intro hk
        exact h.1 (hk ▸ List.mem_map_of_mem Prod.fst hm)
      simp [hne, ih h.2 hm]

theorem encodedPairs_perm (v : url.Values) (h : (v.map Prod.fst).Nodup) :
    v.encodedPairs.Perm v.pairs := by
  unfold url.Values.encodedPairs url.Values.pairs url.Values.sortedKeys
  have h1 := List.Perm.flatMap_right (fun k => (v.Get k).map (fun x => (k, x)))
    (List.perm_insertionSort stringLE (v.map Prod.fst))
  refine h1.trans ?_
  rw [List.flatMap_map]
  apply List.Perm.of_eq
  apply List.flatMap_congr
  intro e he
  rw [Values_Get_of_mem v h e he]

set_option maxRecDepth 100000

theorem escapeByte_no_amp_fin : ∀ n : Fin 256, '&' ∉ url.escapeByte (UInt8.mk (BitVec.ofFin n)) := by
  decide

theorem escapeByte_no_amp (c : UInt8) : '&' ∉ url.escapeByte c :=
  escapeByte_no_amp_fin c.toBitVec.toFin

theorem QueryEscape_no_amp (s : String) : '&' ∉ (url.QueryEscape s).data := by
  simp only [url.QueryEscape, List.mem_flatMap, not_exists, not_and]
  intro c _
  exact escapeByte_no_amp c

theorem item_no_amp (kv : String × String) : '&' ∉ (item kv).data := by
  have h1 := QueryEscape_no_amp kv.1
  have h2 := QueryEscape_no_amp kv.2
  simp only [item, String.data_append, List.mem_append, not_or]
  exact ⟨⟨h1, by decide⟩, h2⟩

theorem Values_addAll (q : List (String × String)) (v : url.Values)
    (h : (v.map Prod.fst).Nodup) :
    ((q.foldl (fun v kv => url.Values.Add v kv.1 kv.2) v).map Prod.fst).Nodup ∧
      (url.Values.pairs (q.foldl (fun v kv => url.Values.Add v kv.1 kv.2) v)).Perm
        (v.pairs ++ q) := by
  induction q generalizing v with
  | nil => simpa using h
  | cons kv q ih =>
    obtain ⟨h1, h2⟩ := ih (v.Add kv.1 kv.2) (Values_Add_nodup v kv.1 kv.2 h)
    refine ⟨h1, h2.trans ?_⟩
    have h3 := (Values_Add_pairs v kv.1 kv.2).append_right q
    simpa using h3

theorem QueryParams_eq (q : List (String × String)) (p : Request) :
    p.QueryParams q =
      { p with Params := q.foldl (fun v kv => url.Values.Add v kv.1 kv.2) p.Params } := by
  unfold Request.QueryParams
  induction q generalizing p with
  | nil => rfl
  | cons kv q ih => simp only [List.foldl_cons]; rw [ih]

/-- What one configuration call keeps and what it does to the query parameters. -/
theorem Config_apply_params {α : Type} (marshal : α → Except GoError (List UInt8))
    (c : Config α) (p q : Request) (h : c.apply marshal p = .ok q)
    (hn : (p.Params.map Prod.fst).Nodup) :
    (q.Params.map Prod.fst).Nodup ∧ q.Params.pairs.Perm (p.Params.pairs ++ c.added) ∧
      q.HSBaseUrl = p.HSBaseUrl ∧ q.HSToken = p.HSToken := by
  cases c with
  | Method m =>
    simp only [Config.apply, Except.ok.injEq] at h
    subst h
    simpa [Request.Method, Config.added] using hn
  | EndPoint e =>
    simp only [Config.apply, Except.ok.injEq] at h
    subst h
    simpa [Request.EndPoint, Config.added] using hn
  | QueryParams qp =>
    simp only [Config.apply, Except.ok.injEq] at h
    subst h
    rw [QueryParams_eq]
    exact ⟨(Values_addAll qp p.Params hn).1, (Values_addAll qp p.Params hn).2, rfl, rfl⟩
  | Page n =>
    simp only [Config.apply, Except.ok.injEq] at h
    subst h
    exact ⟨Values_Add_nodup _ _ _ hn, Values_Add_pairs _ _ _, rfl, rfl⟩
  | PageSize n =>
    simp only [Config.apply, Except.ok.injEq] at h
    subst h
    exact ⟨Values_Add_nodup _ _ _ hn, Values_Add_pairs _ _ _, rfl, rfl⟩
  | Properties x =>
    simp only [Config.apply, Except.ok.injEq] at h
    subst h
    exact ⟨Values_Add_nodup _ _ _ hn, Values_Add_pairs _ _ _, rfl, rfl⟩
  | Associations x =>
    simp only [Config.apply, Except.ok.injEq] at h
    subst h
    exact ⟨Values_Add_nodup _ _ _ hn, Values_Add_pairs _ _ _, rfl, rfl⟩
  | Json body =>
    simp only [Config.apply, Request.Json] at h
    split at h
    · cases h
    · simp only [Except.ok.injEq] at h
      subst h
      simpa [Config.added] using hn

theorem configure_params {α : Type} (marshal : α → Except GoError (List UInt8))
    (calls : List (Config α)) (p q : Request) (h : configure marshal p calls = .ok q)
    (hn : (p.Params.map Prod.fst).Nodup) :
    (q.Params.map Prod.fst).Nodup ∧ q.Params.pairs.Perm (p.Params.pairs ++ added calls) ∧
      q.HSBaseUrl = p.HSBaseUrl ∧ q.HSToken = p.HSToken := by
  induction calls generalizing p with
  | nil =>
    simp only [configure, Except.ok.injEq] at h
    subst h
    simpa [added] using hn
  | cons c calls ih =>
    simp only [configure] at h
    split at h
    · cases h
    · rename_i r hr
      obtain ⟨a1, a2, a3, a4⟩ := Config_apply_params marshal c p r hr hn
      obtain ⟨b1, b2, b3, b4⟩ := ih r h a1
      refine ⟨b1, ?_, b3.trans a3, b4.trans a4⟩
      refine b2.trans ?_
      have := a2.append_right (added calls)
      simpa [added] using this

theorem configure_Init_params {α : Type} (marshal : α → Except GoError (List UInt8))
    (hsBaseUrl hsToken : String) (calls : List (Config α)) (p : Request)
    (h : configure marshal (Init hsBaseUrl hsToken) calls = .ok p) :
    (p.Params.map Prod.fst).Nodup ∧ p.Params.pairs.Perm (added calls) ∧
      p.HSBaseUrl = hsBaseUrl ∧ p.HSToken = hsToken := by
  have := configure_params marshal calls (Init hsBaseUrl hsToken) p h
    (by simp [Init, url.Values.empty])
  simpa [Init, url.Values.empty, url.Values.pairs] using this

/-! ## Traces -/

theorem sent_append (a b : List Event) : sent (a ++ b) = sent a ++ sent b := by
  induction a with
  | nil => rfl
  | cons e a ih => cases e <;> simp [sent, ih]

theorem slept_append (a b : List Event) : slept (a ++ b) = slept a + slept b := by
  induction a with
  | nil => simp [slept]
  | cons e a ih => cases e <;> simp [slept, ih, add_assoc]

theorem mem_sent (req : http.Request) (t : List Event) : req ∈ sent t ↔ Event.Do req ∈ t := by
  induction t with
  | nil => simp [sent]
  | cons e t ih => cases e <;> simp [sent, ih]

/-! ## Construction of the request -/

/-- The three ways `http.NewRequest` can go. -/
theorem NewRequest_cases (urlParse : String → Except GoError url.URL) (method target : String)
    (body : Option bytes.Reader) :
    (∃ u, http.validMethod (if method = "" then "GET" else method) = true ∧
      urlParse target = .ok u ∧
      http.NewRequest urlParse method target body = .ok
        { Method := if method = "" then "GET" else method
          URL := { u with Host := http.removeEmptyPort u.Host }
          Header := []
          Body := match body with
            | none => http.Body.nil
            | some v => if v.Len = 0 then http.Body.NoBody else http.Body.reader v
          ContentLength := match body with
            | none => 0
            | some v => v.Len
          Host := http.removeEmptyPort u.Host }) ∨
    (http.validMethod (if method = "" then "GET" else method) = false ∧
      http.NewRequest urlParse method target body =
        .error (.invalidMethod (if method = "" then "GET" else method))) ∨
    (∃ err, http.validMethod (if method = "" then "GET" else method) = true ∧
      urlParse target = .error err ∧
      http.NewRequest urlParse method target body = .error err) := by
  unfold http.NewRequest
  cases hv : http.validMethod (if method = "" then "GET" else method)
  · right; left
    simp [hv]
  · cases hu : urlParse target with
    | error err =>
      right; right
      exact ⟨err, rfl, rfl, by simp [hv]⟩
    | ok u =>
      left
      refine ⟨u, rfl, rfl, ?_⟩
      cases body with
      | none => simp [hv]
      | some v => by_cases hl : v.Len = 0 <;> simp [hv, hl]

/-- The two ways the construction of `req` can go. -/
theorem construct_cases (urlParse : String → Except GoError url.URL) (p : Request) :
    (∃ u, http.validMethod (if p.RequestMethod = "" then "GET" else p.RequestMethod) = true ∧
      urlParse (p.HSBaseUrl ++ "/" ++ p.requestString) = .ok u ∧
      p.construct urlParse =
        (.ok
          { Method := if p.RequestMethod = "" then "GET" else p.RequestMethod
            URL := { u with Host := http.removeEmptyPort u.Host }
            Header := []
            Body := match p.JsonBody with
              | none => http.Body.nil
              | some v => if v.Len = 0 then http.Body.NoBody else http.Body.reader v
            ContentLength := match p.JsonBody with
              | none => 0
              | some v => v.Len
            Host := http.removeEmptyPort u.Host },
          match p.JsonBody with
          | none => [Event.Println (p.HSBaseUrl ++ "/" ++ p.requestString)]
          | some _ => [Event.Println (p.HSBaseUrl ++ "/" ++ p.requestString),
              Event.Println (p.HSBaseUrl ++ "/" ++ p.requestString)])) ∨
    (∃ err : GoError,
      ((http.validMethod (if p.RequestMethod = "" then "GET" else p.RequestMethod) = false ∧
          err = GoError.invalidMethod (if p.RequestMethod = "" then "GET" else p.RequestMethod)) ∨
        (http.validMethod (if p.RequestMethod = "" then "GET" else p.RequestMethod) = true ∧
          urlParse (p.HSBaseUrl ++ "/" ++ p.requestString) = .error err)) ∧
      p.construct urlParse =
        (.error err,
          match p.JsonBody with
          | none => [Event.Println (p.HSBaseUrl ++ "/" ++ p.requestString), Event.PrintlnError err]
          | some _ => [Event.Println (p.HSBaseUrl ++ "/" ++ p.requestString),
              Event.PrintlnError err, Event.Println (p.HSBaseUrl ++ "/" ++ p.requestString),
              Event.PrintlnError err, Event.PrintlnError err])) := by
  unfold Request.construct GetRequest BodyRequest CreateRequest
  cases hj : p.JsonBody with
  | none =>
    rcases NewRequest_cases urlParse p.RequestMethod (p.HSBaseUrl ++ "/" ++ p.requestString) none
      with ⟨u, hv, hu, h⟩ | ⟨hv, h⟩ | ⟨err, hv, hu, h⟩
    · left; exact ⟨u, hv, hu, by simp [h]⟩
    · right
      exact ⟨GoError.invalidMethod (if p.RequestMethod = "" then "GET" else p.RequestMethod),
        Or.inl ⟨hv, rfl⟩, by simp [h]⟩
    · right; exact ⟨err, Or.inr ⟨hv, hu⟩, by simp [h]⟩
  | some v =>
    rcases NewRequest_cases urlParse p.RequestMethod (p.HSBaseUrl ++ "/" ++ p.requestString) none
      with ⟨u, hv, hu, h⟩ | ⟨hv, h⟩ | ⟨err, hv, hu, h⟩
    · rcases NewRequest_cases urlParse p.RequestMethod (p.HSBaseUrl ++ "/" ++ p.requestString)
        (some v) with ⟨u2, _, hu2, h2⟩ | ⟨hv2, _⟩ | ⟨err2, _, hu2, _⟩
      · have hu' : u2 = u := by
          rw [hu] at hu2
          exact (Except.ok.inj hu2).symm
        subst hu'
        left; exact ⟨u2, hv, hu, by simp [h, h2]⟩
      · rw [hv] at hv2
        cases hv2
      · rw [hu] at hu2
        cases hu2
    · rcases NewRequest_cases urlParse p.RequestMethod (p.HSBaseUrl ++ "/" ++ p.requestString)
        (some v) with ⟨u2, hv2, _, _⟩ | ⟨_, h2⟩ | ⟨err2, hv2, _, _⟩
      · rw [hv] at hv2
        cases hv2
      · right
        exact ⟨GoError.invalidMethod (if p.RequestMethod = "" then "GET" else p.RequestMethod),
          Or.inl ⟨hv, rfl⟩, by simp [h, h2]⟩
      · rw [hv] at hv2
        cases hv2
    · rcases NewRequest_cases urlParse p.RequestMethod (p.HSBaseUrl ++ "/" ++ p.requestString)
        (some v) with ⟨u2, _, hu2, _⟩ | ⟨hv2, _⟩ | ⟨err2, _, hu2, h2⟩
      · rw [hu] at hu2
        cases hu2
      · rw [hv] at hv2
        cases hv2
      · have he : err2 = err := by
          rw [hu] at hu2
          exact (Except.error.inj hu2).symm
        subst he
        right; exact ⟨err2, Or.inr ⟨hv, hu⟩, by simp [h, h2]⟩

theorem construct_no_effects (urlParse : String → Except GoError url.URL) (p : Request) :
    sent (p.construct urlParse).2 = [] ∧ slept (p.construct urlParse).2 = 0 := by
  rcases construct_cases urlParse p with ⟨_, _, _, h⟩ | ⟨err, _, h⟩ <;> rw [h] <;>
    cases p.JsonBody <;> simp [sent, slept]

theorem Request_of_construct_ok (urlParse : String → Except GoError url.URL) (client : http.Transport) (calls : Nat)
    (p : Request) (req : http.Request) (h : (p.construct urlParse).1 = .ok req) :
    p.Request urlParse client calls =
      p.finish (retryLoop client backoffSchedule
        { req := p.setHeaders req, response := none, err := none, calls := calls,
          trace := (p.construct urlParse).2 }) := by
  unfold Request.Request
  generalize p.construct urlParse = c at h
  obtain ⟨r, out⟩ := c
  simp only at h
  subst h
  rfl

theorem Request_of_construct_error (urlParse : String → Except GoError url.URL) (client : http.Transport)
    (calls : Nat) (p : Request) (err : GoError) (h : (p.construct urlParse).1 = .error err) :
    p.Request urlParse client calls =
      { p := p, trace := (p.construct urlParse).2, outcome := Outcome.nilDereference } := by
  unfold Request.Request
  generalize p.construct urlParse = c at h
  obtain ⟨r, out⟩ := c
  simp only at h
  subst h
  rfl

/-! ## The retry loop -/

theorem retryLoop_ok (client : http.Transport) (backoff : time.Duration)
    (rest : List time.Duration) (st : LoopState) (response : http.Response)
    (h : (client st.calls st.req).result = .ok response) :
    retryLoop client (backoff :: rest) st =
      { req := st.req.consume (client st.calls st.req).read
        response := some response
        err := none
        calls := st.calls + 1
        trace := st.trace ++ [Event.Do st.req] } := by
  simp [retryLoop, h]

theorem retryLoop_error (client : http.Transport) (backoff : time.Duration)
    (rest : List time.Duration) (st : LoopState) (err : GoError)
    (h : (client st.calls st.req).result = .error err) :
    retryLoop client (backoff :: rest) st =
      retryLoop client rest
        { req := st.req.consume (client st.calls st.req).read
          response := none
          err := some err
          calls := st.calls + 1
          trace := st.trace ++
            [Event.Do st.req, Event.RequestError err, Event.Retrying backoff, Event.Sleep backoff] } := by
  simp [retryLoop, h]

/-! ## After the loop -/

theorem syncBody_fields (p : Request) (req : http.Request) :
    (p.syncBody req).Status = p.Status ∧ (p.syncBody req).StatusCode = p.StatusCode ∧
      (p.syncBody req).Headers = p.Headers ∧ (p.syncBody req).ContentLength = p.ContentLength ∧
      (p.syncBody req).Content = p.Content ∧ (p.syncBody req).RequestMethod = p.RequestMethod := by
  unfold Request.syncBody
  split <;> simp

theorem finish_fatal (p : Request) (st : LoopState) (err : GoError) (h : st.err = some err) :
    p.finish st =
      { p := p.syncBody st.req, trace := st.trace ++ [Event.Fatalln err],
        outcome := Outcome.fatal err } := by
  simp [Request.finish, h]

theorem finish_response (p : Request) (st : LoopState) (response : http.Response)
    (he : st.err = none) (hr : st.response = some response) :
    p.finish st =
      { p := { p.syncBody st.req with
          Status := response.Status
          StatusCode := response.StatusCode
          ContentLength := response.ContentLength
          Headers := response.Header
          Content := response.Body.data }
        trace := st.trace ++
          [Event.Println response.Status, Event.PrintlnInt response.StatusCode,
            Event.PrintlnInt response.ContentLength, Event.Println p.RequestMethod] ++
          (match response.Body.closeErr with
            | some err => [Event.Fatalln err]
            | none => [])
        outcome :=
          match response.Body.closeErr with
          | some err => Outcome.fatal err
          | none =>
            match response.Body.readErr with
            | some err => Outcome.panic err
            | none => Outcome.returned response.Body.data } := by
  have hm := (syncBody_fields p st.req).2.2.2.2.2
  simp only [Request.finish, he, hr, io.ReadAll, io.ReadCloser.Close, hm]
  cases response.Body.closeErr <;> simp

theorem construct_prints_only (urlParse : String → Except GoError url.URL) (p : Request) (e : Event)
    (he : e ∈ (p.construct urlParse).2) : (∃ line, e = Event.Println line) ∨ (∃ err, e = Event.PrintlnError err) := by
  rcases construct_cases urlParse p with ⟨_, _, _, h⟩ | ⟨err, _, h⟩ <;> rw [h] at he <;>
    cases p.JsonBody <;> simp at he <;> aesop

/-! ## The retry policy -/

/-- C3, amended: a response on the first call, whatever its status code, is not
retried. -/
theorem Request_response_on_first_call (urlParse : String → Except GoError url.URL) (client : http.Transport)
    (p : Request) (req : http.Request) (c : Int)
    (hc : (p.construct urlParse).1 = .ok req)
    (h0 : ∀ r, ∃ response, (client 0 r).result = .ok response ∧ response.StatusCode = c)
    (hb : cleanAt client 0) :
    ∃ r0 response,
      sent (p.Request urlParse client 0).trace = [r0] ∧
      (client 0 r0).result = .ok response ∧
      slept (p.Request urlParse client 0).trace = 0 ∧
      (∀ d, Event.Sleep d ∉ (p.Request urlParse client 0).trace) ∧
      (p.Request urlParse client 0).outcome = Outcome.returned response.Body.data ∧
      (p.Request urlParse client 0).p.StatusCode = c ∧
      (p.Request urlParse client 0).p.GetStatus = c := by
  obtain ⟨response, hr, hcode⟩ := h0 (p.setHeaders req)
  obtain ⟨hre, hcl⟩ := hb _ _ hr
  refine ⟨p.setHeaders req, response, ?_, hr, ?_, ?_, ?_, ?_, ?_⟩ <;>
    rw [Request_of_construct_ok urlParse client 0 p req hc] <;>
    unfold backoffSchedule <;>
    rw [retryLoop_ok client _ _ _ response hr] <;>
    rw [finish_response _ _ response rfl rfl]
  · simp [sent_append, (construct_no_effects urlParse p).1, sent, hcl]
  · simp [slept_append, (construct_no_effects urlParse p).2, slept, hcl]
  · intro d hd
    simp only [hcl, List.append_nil, List.mem_append, List.mem_cons, List.mem_singleton,
      List.not_mem_nil, or_false] at hd
    rcases hd with (hd | hd) | hd
    · rcases construct_prints_only urlParse p _ hd with ⟨l, hl⟩ | ⟨e, hl⟩ <;> cases hl
    · cases hd
    · rcases hd with hd | hd | hd | hd <;> cases hd
  · simp [hre, hcl]
  · simpa using hcode
  · simpa [Request.GetStatus] using hcode

/-- C2, amended: two transport errors and then a response give that response
after the first two delays of the schedule. -/
theorem Request_response_on_third_call (urlParse : String → Except GoError url.URL) (client : http.Transport)
    (p : Request) (req : http.Request)
    (hc : (p.construct urlParse).1 = .ok req)
    (h0 : failsAt client 0) (h1 : failsAt client 1) (h2 : respondsAt client 2)
    (hb : cleanAt client 2) :
    ∃ r0 r1 r2 response,
      sent (p.Request urlParse client 0).trace = [r0, r1, r2] ∧
      (client 2 r2).result = .ok response ∧
      (p.Request urlParse client 0).outcome = Outcome.returned response.Body.data ∧
      (p.Request urlParse client 0).p.StatusCode = response.StatusCode ∧
      (p.Request urlParse client 0).p.Content = response.Body.data ∧
      slept (p.Request urlParse client 0).trace = 1 * time.Second + 3 * time.Second ∧
      Event.Sleep (10 * time.Second) ∉ (p.Request urlParse client 0).trace := by
  obtain ⟨e0, he0⟩ := h0 (p.setHeaders req)
  obtain ⟨e1, he1⟩ := h1 ((p.setHeaders req).consume (client 0 (p.setHeaders req)).read)
  obtain ⟨response, hr⟩ := h2 (((p.setHeaders req).consume (client 0 (p.setHeaders req)).read).consume
    (client 1 ((p.setHeaders req).consume (client 0 (p.setHeaders req)).read)).read)
  obtain ⟨hre, hcl⟩ := hb _ _ hr
  have hex : p.Request urlParse client 0 =
      { p := { p.syncBody ((((p.setHeaders req).consume (client 0 (p.setHeaders req)).read).consume
            (client 1 ((p.setHeaders req).consume (client 0 (p.setHeaders req)).read)).read).consume
            (client 2 (((p.setHeaders req).consume (client 0 (p.setHeaders req)).read).consume
              (client 1 ((p.setHeaders req).consume
                (client 0 (p.setHeaders req)).read)).read)).read) with
          Status := response.Status
          StatusCode := response.StatusCode
          ContentLength := response.ContentLength
          Headers := response.Header
          Content := response.Body.data }
        trace := (p.construct urlParse).2 ++
          [Event.Do (p.setHeaders req), Event.RequestError e0, Event.Retrying (1 * time.Second),
            Event.Sleep (1 * time.Second),
            Event.Do ((p.setHeaders req).consume (client 0 (p.setHeaders req)).read),
            Event.RequestError e1, Event.Retrying (3 * time.Second), Event.Sleep (3 * time.Second),
            Event.Do (((p.setHeaders req).consume (client 0 (p.setHeaders req)).read).consume
              (client 1 ((p.setHeaders req).consume (client 0 (p.setHeaders req)).read)).read),
            Event.Println response.Status, Event.PrintlnInt response.StatusCode,
            Event.PrintlnInt response.ContentLength, Event.Println p.RequestMethod]
        outcome := Outcome.returned response.Body.data } := by
    rw [Request_of_construct_ok urlParse client 0 p req hc]
    unfold backoffSchedule
    rw [retryLoop_error client _ _ _ e0 he0, retryLoop_error client _ _ _ e1 he1,
      retryLoop_ok client _ _ _ response hr, finish_response _ _ response rfl rfl]
    simp [hre, hcl]
  refine ⟨p.setHeaders req, (p.setHeaders req).consume (client 0 (p.setHeaders req)).read,
    ((p.setHeaders req).consume (client 0 (p.setHeaders req)).read).consume
      (client 1 ((p.setHeaders req).consume (client 0 (p.setHeaders req)).read)).read,
    response, ?_, hr, ?_, ?_, ?_, ?_, ?_⟩ <;> rw [hex]
  · simp [sent_append, (construct_no_effects urlParse p).1, sent]
  · simp only [slept_append, (construct_no_effects urlParse p).2, slept]
    ring
  · intro hd
    rcases List.mem_append.mp hd with hd | hd
    · rcases construct_prints_only urlParse p _ hd with ⟨l, hl⟩ | ⟨e, hl⟩ <;> cases hl
    · simp [time.Second] at hd

/-- C4, amended: when every attempt fails, `Request()` ends in `log.Fatalln` and
stores nothing of a response. -/
theorem Request_every_call_fails (urlParse : String → Except GoError url.URL) (client : http.Transport)
    (p : Request) (req : http.Request)
    (hc : (p.construct urlParse).1 = .ok req)
    (hf : ∀ n, n < 4 → failsAt client n) :
    (∃ err, (p.Request urlParse client 0).outcome = Outcome.fatal err) ∧
      (p.Request urlParse client 0).p.Status = p.Status ∧
      (p.Request urlParse client 0).p.StatusCode = p.StatusCode ∧
      (p.Request urlParse client 0).p.Headers = p.Headers ∧
      (p.Request urlParse client 0).p.ContentLength = p.ContentLength ∧
      (p.Request urlParse client 0).p.Content = p.Content := by
  obtain ⟨e0, he0⟩ := hf 0 (by omega) (p.setHeaders req)
  obtain ⟨e1, he1⟩ := hf 1 (by omega) ((p.setHeaders req).consume (client 0 (p.setHeaders req)).read)
  obtain ⟨e2, he2⟩ := hf 2 (by omega)
    (((p.setHeaders req).consume (client 0 (p.setHeaders req)).read).consume
      (client 1 ((p.setHeaders req).consume (client 0 (p.setHeaders req)).read)).read)
  rw [Request_of_construct_ok urlParse client 0 p req hc]
  unfold backoffSchedule
  rw [retryLoop_error client _ _ _ e0 he0, retryLoop_error client _ _ _ e1 he1,
    retryLoop_error client _ _ _ e2 he2]
  simp only [retryLoop]
  rw [finish_fatal _ _ e2 rfl]
  obtain ⟨a1, a2, a3, a4, a5, _⟩ := syncBody_fields p
    ((((p.setHeaders req).consume (client 0 (p.setHeaders req)).read).consume
      (client 1 ((p.setHeaders req).consume (client 0 (p.setHeaders req)).read)).read).consume
      (client 2 (((p.setHeaders req).consume (client 0 (p.setHeaders req)).read).consume
      (client 1 ((p.setHeaders req).consume (client 0 (p.setHeaders req)).read)).read)).read)
  exact ⟨⟨e2, rfl⟩, a1, a2, a3, a4, a5⟩

/-- C1: on a transport that fails three times and would answer the fourth
call, `Request()` makes three calls, sleeps through all three delays and ends in
`log.Fatalln`; no fourth call is made. -/
theorem Request_makes_no_fourth_call :
    failsAt (failThenRespond 3 (sampleResponse 200 "200 OK" [123, 125])) 0 ∧
    failsAt (failThenRespond 3 (sampleResponse 200 "200 OK" [123, 125])) 1 ∧
    failsAt (failThenRespond 3 (sampleResponse 200 "200 OK" [123, 125])) 2 ∧
    respondsAt (failThenRespond 3 (sampleResponse 200 "200 OK" [123, 125])) 3 ∧
    (sent (contacts.Request sampleParse
      (failThenRespond 3 (sampleResponse 200 "200 OK" [123, 125])) 0).trace).length = 3 ∧
    slept (contacts.Request sampleParse
      (failThenRespond 3 (sampleResponse 200 "200 OK" [123, 125])) 0).trace
        = 1 * time.Second + 3 * time.Second + 10 * time.Second ∧
    (contacts.Request sampleParse
      (failThenRespond 3 (sampleResponse 200 "200 OK" [123, 125])) 0).outcome
        = Outcome.fatal refused :=
  ⟨fun _ => ⟨refused, rfl⟩, fun _ => ⟨refused, rfl⟩, fun _ => ⟨refused, rfl⟩,
    fun _ => ⟨_, rfl⟩, by decide, by decide, by decide⟩

theorem Request_response_on_third_call_witness :
    (contacts.construct sampleParse).1 = .ok contactsRequest ∧
    failsAt (failThenRespond 2 (sampleResponse 200 "200 OK" [123, 125])) 0 ∧
    failsAt (failThenRespond 2 (sampleResponse 200 "200 OK" [123, 125])) 1 ∧
    respondsAt (failThenRespond 2 (sampleResponse 200 "200 OK" [123, 125])) 2 ∧
    cleanAt (failThenRespond 2 (sampleResponse 200 "200 OK" [123, 125])) 2 ∧
    ∃ r0 r1 r2 response,
      sent (contacts.Request sampleParse
        (failThenRespond 2 (sampleResponse 200 "200 OK" [123, 125])) 0).trace = [r0, r1, r2] ∧
      (failThenRespond 2 (sampleResponse 200 "200 OK" [123, 125]) 2 r2).result = .ok response ∧
      (contacts.Request sampleParse
        (failThenRespond 2 (sampleResponse 200 "200 OK" [123, 125])) 0).outcome
          = Outcome.returned response.Body.data ∧
      (contacts.Request sampleParse
        (failThenRespond 2 (sampleResponse 200 "200 OK" [123, 125])) 0).p.StatusCode
          = response.StatusCode ∧
      (contacts.Request sampleParse
        (failThenRespond 2 (sampleResponse 200 "200 OK" [123, 125])) 0).p.Content
          = response.Body.data ∧
      slept (contacts.Request sampleParse
        (failThenRespond 2 (sampleResponse 200 "200 OK" [123, 125])) 0).trace
          = 1 * time.Second + 3 * time.Second ∧
      Event.Sleep (10 * time.Second) ∉ (contacts.Request sampleParse
        (failThenRespond 2 (sampleResponse 200 "200 OK" [123, 125])) 0).trace :=
  have h0 : failsAt (failThenRespond 2 (sampleResponse 200 "200 OK" [123, 125])) 0 :=
    fun _ => ⟨refused, rfl⟩
  have h1 : failsAt (failThenRespond 2 (sampleResponse 200 "200 OK" [123, 125])) 1 :=
    fun _ => ⟨refused, rfl⟩
  have h2 : respondsAt (failThenRespond 2 (sampleResponse 200 "200 OK" [123, 125])) 2 :=
    fun _ => ⟨_, rfl⟩
  have hb : cleanAt (failThenRespond 2 (sampleResponse 200 "200 OK" [123, 125])) 2 :=
    fun _ _ h => by cases h; exact ⟨rfl, rfl⟩
  ⟨rfl, h0, h1, h2, hb,
    Request_response_on_third_call sampleParse _ contacts contactsRequest rfl h0 h1 h2 hb⟩

/-- C2 as stated fails at two inputs.  On the builder `badMethod` no request is
constructed: the transport is never called and `Request()` leaves through a nil
dereference.  On the builder `contacts`, when the body of the response of the
third call cannot be read to the end, `Request()` panics instead of returning. -/
theorem Request_response_on_third_call_counterexample :
    failsAt (failThenRespond 2 (sampleResponse 200 "200 OK" [123, 125])) 0 ∧
    failsAt (failThenRespond 2 (sampleResponse 200 "200 OK" [123, 125])) 1 ∧
    respondsAt (failThenRespond 2 (sampleResponse 200 "200 OK" [123, 125])) 2 ∧
    sent (badMethod.Request sampleParse
      (failThenRespond 2 (sampleResponse 200 "200 OK" [123, 125])) 0).trace = [] ∧
    (badMethod.Request sampleParse
      (failThenRespond 2 (sampleResponse 200 "200 OK" [123, 125])) 0).outcome
        = Outcome.nilDereference ∧
    failsAt (failThenRespond 2 (brokenResponse 200 "200 OK")) 0 ∧
    failsAt (failThenRespond 2 (brokenResponse 200 "200 OK")) 1 ∧
    respondsAt (failThenRespond 2 (brokenResponse 200 "200 OK")) 2 ∧
    (contacts.Request sampleParse (failThenRespond 2 (brokenResponse 200 "200 OK")) 0).outcome
      = Outcome.panic unexpectedEOF :=
  ⟨fun _ => ⟨refused, rfl⟩, fun _ => ⟨refused, rfl⟩, fun _ => ⟨_, rfl⟩, by decide, by decide,
    fun _ => ⟨refused, rfl⟩, fun _ => ⟨refused, rfl⟩, fun _ => ⟨_, rfl⟩, by decide⟩

theorem Request_response_on_first_call_witness :
    (contacts.construct sampleParse).1 = .ok contactsRequest ∧
    (∀ r, ∃ response,
      (failThenRespond 0 (sampleResponse 404 "404 Not Found" [123, 125]) 0 r).result
        = .ok response ∧ response.StatusCode = 404) ∧
    cleanAt (failThenRespond 0 (sampleResponse 404 "404 Not Found" [123, 125])) 0 ∧
    ∃ r0 response,
      sent (contacts.Request sampleParse
        (failThenRespond 0 (sampleResponse 404 "404 Not Found" [123, 125])) 0).trace = [r0] ∧
      (failThenRespond 0 (sampleResponse 404 "404 Not Found" [123, 125]) 0 r0).result
        = .ok response ∧
      slept (contacts.Request sampleParse
        (failThenRespond 0 (sampleResponse 404 "404 Not Found" [123, 125])) 0).trace = 0 ∧
      (∀ d, Event.Sleep d ∉ (contacts.Request sampleParse
        (failThenRespond 0 (sampleResponse 404 "404 Not Found" [123, 125])) 0).trace) ∧
      (contacts.Request sampleParse
        (failThenRespond 0 (sampleResponse 404 "404 Not Found" [123, 125])) 0).outcome
          = Outcome.returned response.Body.data ∧
      (contacts.Request sampleParse
        (failThenRespond 0 (sampleResponse 404 "404 Not Found" [123, 125])) 0).p.StatusCode
          = 404 ∧
      (contacts.Request sampleParse
        (failThenRespond 0 (sampleResponse 404 "404 Not Found" [123, 125])) 0).p.GetStatus
          = 404 :=
  have h0 : ∀ r, ∃ response,
      (failThenRespond 0 (sampleResponse 404 "404 Not Found" [123, 125]) 0 r).result
        = .ok response ∧ response.StatusCode = 404 :=
    fun _ => ⟨_, rfl, rfl⟩
  have hb : cleanAt (failThenRespond 0 (sampleResponse 404 "404 Not Found" [123, 125])) 0 :=
    fun _ _ h => by cases h; exact ⟨rfl, rfl⟩
  ⟨rfl, h0, hb,
    Request_response_on_first_call sampleParse _ contacts contactsRequest 404 rfl h0 hb⟩

/-- C3 as stated fails at two inputs.  On the builder `badMethod` the transport
that would answer 404 is never called and `Request()` leaves through a nil
dereference.  On the builder `contacts`, when the body of the 404 response cannot
be read to the end, `Request()` panics instead of returning the body. -/
theorem Request_response_on_first_call_counterexample :
    (∀ r, ∃ response,
      (failThenRespond 0 (sampleResponse 404 "404 Not Found" [123, 125]) 0 r).result
        = .ok response ∧ response.StatusCode = 404) ∧
    sent (badMethod.Request sampleParse
      (failThenRespond 0 (sampleResponse 404 "404 Not Found" [123, 125])) 0).trace = [] ∧
    (badMethod.Request sampleParse
      (failThenRespond 0 (sampleResponse 404 "404 Not Found" [123, 125])) 0).outcome
        = Outcome.nilDereference ∧
    (badMethod.Request sampleParse
      (failThenRespond 0 (sampleResponse 404 "404 Not Found" [123, 125])) 0).p.StatusCode
        = 0 ∧
    (∀ r, ∃ response,
      (failThenRespond 0 (brokenResponse 404 "404 Not Found") 0 r).result
        = .ok response ∧ response.StatusCode = 404) ∧
    (contacts.Request sampleParse
      (failThenRespond 0 (brokenResponse 404 "404 Not Found")) 0).outcome
        = Outcome.panic unexpectedEOF :=
  ⟨fun _ => ⟨_, rfl, rfl⟩, by decide, by decide, by decide, fun _ => ⟨_, rfl, rfl⟩, by decide⟩

theorem Request_every_call_fails_witness :
    (contacts.construct sampleParse).1 = .ok contactsRequest ∧
    (∀ n, n < 4 → failsAt (failThenRespond 4 (sampleResponse 200 "200 OK" [123, 125])) n) ∧
    (∃ err, (contacts.Request sampleParse
      (failThenRespond 4 (sampleResponse 200 "200 OK" [123, 125])) 0).outcome
        = Outcome.fatal err) ∧
    (contacts.Request sampleParse
      (failThenRespond 4 (sampleResponse 200 "200 OK" [123, 125])) 0).p.Status
        = contacts.Status ∧
    (contacts.Request sampleParse
      (failThenRespond 4 (sampleResponse 200 "200 OK" [123, 125])) 0).p.StatusCode
        = contacts.StatusCode ∧
    (contacts.Request sampleParse
      (failThenRespond 4 (sampleResponse 200 "200 OK" [123, 125])) 0).p.Headers
        = contacts.Headers ∧
    (contacts.Request sampleParse
      (failThenRespond 4 (sampleResponse 200 "200 OK" [123, 125])) 0).p.ContentLength
        = contacts.ContentLength ∧
    (contacts.Request sampleParse
      (failThenRespond 4 (sampleResponse 200 "200 OK" [123, 125])) 0).p.Content
        = contacts.Content :=
  have hf : ∀ n, n < 4 → failsAt (failThenRespond 4 (sampleResponse 200 "200 OK" [123, 125])) n :=
    fun n hn _ => ⟨refused, by simp [failThenRespond, hn]⟩
  ⟨rfl, hf, Request_every_call_fails sampleParse _ contacts contactsRequest rfl hf⟩

/-- C4 as stated fails on the builder `badMethod`: with a transport that fails on
every call, `Request()` does not end in `log.Fatalln` but leaves through a nil
dereference, a panic, before the transport is called at all. -/
theorem Request_every_call_fails_counterexample :
    (∀ n, n < 4 → failsAt (failThenRespond 4 (sampleResponse 200 "200 OK" [123, 125])) n) ∧
    (badMethod.Request sampleParse
      (failThenRespond 4 (sampleResponse 200 "200 OK" [123, 125])) 0).outcome
        = Outcome.nilDereference ∧
    (∀ err, (badMethod.Request sampleParse
      (failThenRespond 4 (sampleResponse 200 "200 OK" [123, 125])) 0).outcome
        ≠ Outcome.fatal err) ∧
    sent (badMethod.Request sampleParse
      (failThenRespond 4 (sampleResponse 200 "200 OK" [123, 125])) 0).trace = [] :=
  have h2 : (badMethod.Request sampleParse
      (failThenRespond 4 (sampleResponse 200 "200 OK" [123, 125])) 0).outcome
        = Outcome.nilDereference := by decide
  ⟨fun n hn _ => ⟨refused, by simp [failThenRespond, hn]⟩, h2,
    fun err h => Outcome.noConfusion (h2.symm.trans h), by decide⟩

/-! ## Failed construction -/

theorem construct_error_iff (urlParse : String → Except GoError url.URL) (p : Request) :
    (∃ err, (p.construct urlParse).1 = .error err) ↔
      (http.validMethod (if p.RequestMethod = "" then "GET" else p.RequestMethod) = false ∨
        ∃ err, urlParse (p.HSBaseUrl ++ "/" ++ p.requestString) = .error err) := by
  rcases construct_cases urlParse p with ⟨u, hv, hu, h⟩ | ⟨err, hbad, h⟩
  · rw [h]
    simp [hv, hu]
  · rw [h]
    refine ⟨fun _ => ?_, fun _ => ⟨err, rfl⟩⟩
    rcases hbad with ⟨hv, _⟩ | ⟨_, hu⟩
    · exact Or.inl hv
    · exact Or.inr ⟨err, hu⟩

theorem construct_error_cause (urlParse : String → Except GoError url.URL) (p : Request)
    (err : GoError) (hc : (p.construct urlParse).1 = .error err) :
    (http.validMethod (if p.RequestMethod = "" then "GET" else p.RequestMethod) = false ∧
        err = GoError.invalidMethod (if p.RequestMethod = "" then "GET" else p.RequestMethod)) ∨
      (http.validMethod (if p.RequestMethod = "" then "GET" else p.RequestMethod) = true ∧
        urlParse (p.HSBaseUrl ++ "/" ++ p.requestString) = .error err) := by
  rcases construct_cases urlParse p with ⟨u, hv, hu, h⟩ | ⟨e, hbad, h⟩
  · rw [h] at hc
    cases hc
  · rw [h] at hc
    simp only [Except.error.injEq] at hc
    subst hc
    exact hbad

theorem construct_error_trace (urlParse : String → Except GoError url.URL) (p : Request) (err : GoError)
    (hc : (p.construct urlParse).1 = .error err) :
    (p.construct urlParse).2 =
      match p.JsonBody with
      | none => [Event.Println (p.HSBaseUrl ++ "/" ++ p.requestString), Event.PrintlnError err]
      | some _ => [Event.Println (p.HSBaseUrl ++ "/" ++ p.requestString),
          Event.PrintlnError err, Event.Println (p.HSBaseUrl ++ "/" ++ p.requestString),
          Event.PrintlnError err, Event.PrintlnError err] := by
  rcases construct_cases urlParse p with ⟨u, hv, hu, h⟩ | ⟨e, hbad, h⟩
  · rw [h] at hc
    cases hc
  · rw [h] at hc ⊢
    simp only [Except.error.injEq] at hc
    subst hc
    rfl

theorem invalid_method_G_T : http.validMethod (if "G T" = "" then "GET" else "G T") = false := by
  decide

/-- C10: when the construction returns an error and no request, `Request()`
prints the error, dereferences the nil request and never calls the transport. -/
theorem Request_on_failed_construction (urlParse : String → Except GoError url.URL) (client : http.Transport)
    (calls : Nat) (p : Request) (err : GoError)
    (hc : (p.construct urlParse).1 = .error err) :
    (p.Request urlParse client calls).outcome = Outcome.nilDereference ∧
    sent (p.Request urlParse client calls).trace = [] ∧
    (p.Request urlParse client calls).p = p ∧
    (p.Request urlParse client calls).trace =
      (match p.JsonBody with
      | none => [Event.Println (p.HSBaseUrl ++ "/" ++ p.requestString), Event.PrintlnError err]
      | some _ => [Event.Println (p.HSBaseUrl ++ "/" ++ p.requestString),
          Event.PrintlnError err, Event.Println (p.HSBaseUrl ++ "/" ++ p.requestString),
          Event.PrintlnError err, Event.PrintlnError err]) ∧
    ((http.validMethod (if p.RequestMethod = "" then "GET" else p.RequestMethod) = false ∧
        err = GoError.invalidMethod (if p.RequestMethod = "" then "GET" else p.RequestMethod)) ∨
      (http.validMethod (if p.RequestMethod = "" then "GET" else p.RequestMethod) = true ∧
        urlParse (p.HSBaseUrl ++ "/" ++ p.requestString) = .error err)) ∧
    (∀ q : Request, sent (q.Request urlParse client calls).trace ≠ [] →
      ∃ req, (q.construct urlParse).1 = .ok req) ∧
    (∀ q : Request, ∃ e, ((q.Method "G T").construct urlParse).1 = .error e) := by
  refine ⟨?_, ?_, ?_, ?_, ?_, ?_, ?_⟩
  · rw [Request_of_construct_error urlParse client calls p err hc]
  · rw [Request_of_construct_error urlParse client calls p err hc]
    exact (construct_no_effects urlParse p).1
  · rw [Request_of_construct_error urlParse client calls p err hc]
  · rw [Request_of_construct_error urlParse client calls p err hc]
    exact construct_error_trace urlParse p err hc
  · exact construct_error_cause urlParse p err hc
  · intro q hq
    cases hq1 : (q.construct urlParse).1 with
    | ok req => exact ⟨req, rfl⟩
    | error e =>
      rw [Request_of_construct_error urlParse client calls q e hq1] at hq
      exact absurd (construct_no_effects urlParse q).1 hq
  · intro q
    exact (construct_error_iff urlParse (q.Method "G T")).mpr (Or.inl invalid_method_G_T)

theorem Request_on_failed_construction_witness :
    (badMethod.construct sampleParse).1 = .error (GoError.invalidMethod "G T") ∧
    (badMethod.Request sampleParse (failThenRespond 0 (sampleResponse 200 "200 OK" [123, 125]))
      0).outcome = Outcome.nilDereference ∧
    sent (badMethod.Request sampleParse
      (failThenRespond 0 (sampleResponse 200 "200 OK" [123, 125])) 0).trace = [] ∧
    (badMethod.Request sampleParse (failThenRespond 0 (sampleResponse 200 "200 OK" [123, 125]))
      0).p = badMethod :=
  have h := Request_on_failed_construction sampleParse
    (failThenRespond 0 (sampleResponse 200 "200 OK" [123, 125])) 0 badMethod
    (GoError.invalidMethod "G T") rfl
  ⟨rfl, h.1, h.2.1, h.2.2.1⟩

/-! ## Executing twice -/

/-- C5: after `Method("POST")` and `Json(true)`, on a transport that reads the
request body and answers every call, the first `Request()` sends the four bytes
of `true` and the second `Request()`, with nothing configured in between, sends
the same method, URL and headers with an empty body and content length 0. -/
theorem Request_again_sends_empty_body :
    (contacts.Method "POST").Json marshalBool true = .ok posted ∧
    respondsAt (failThenRespond 0 (sampleResponse 200 "200 OK" [123, 125])) 0 ∧
    respondsAt (failThenRespond 0 (sampleResponse 200 "200 OK" [123, 125])) 1 ∧
    sent (posted.Request sampleParse
        (failThenRespond 0 (sampleResponse 200 "200 OK" [123, 125])) 0).trace
      = [{ Method := "POST"
           URL := contactsURL
           Header := [("Content-Type", ["application/json"]), ("Accept", ["application/json"]),
             ("Authorization", ["Bearer secret"])]
           Body := http.Body.reader { s := [116, 114, 117, 101], i := 0 }
           ContentLength := 4
           Host := "api.hubapi.com" }] ∧
    (sent (posted.Request sampleParse
        (failThenRespond 0 (sampleResponse 200 "200 OK" [123, 125])) 0).trace).map
      http.Request.bodyBytes = [[116, 114, 117, 101]] ∧
    (posted.Request sampleParse
        (failThenRespond 0 (sampleResponse 200 "200 OK" [123, 125])) 0).outcome
      = Outcome.returned [123, 125] ∧
    sent ((posted.Request sampleParse
        (failThenRespond 0 (sampleResponse 200 "200 OK" [123, 125])) 0).p.Request sampleParse
        (failThenRespond 0 (sampleResponse 200 "200 OK" [123, 125])) 1).trace
      = [{ Method := "POST"
           URL := contactsURL
           Header := [("Content-Type", ["application/json"]), ("Accept", ["application/json"]),
             ("Authorization", ["Bearer secret"])]
           Body := http.Body.NoBody
           ContentLength := 0
           Host := "api.hubapi.com" }] ∧
    (sent ((posted.Request sampleParse
        (failThenRespond 0 (sampleResponse 200 "200 OK" [123, 125])) 0).p.Request sampleParse
        (failThenRespond 0 (sampleResponse 200 "200 OK" [123, 125])) 1).trace).map
      http.Request.bodyBytes = [[]] :=
  ⟨rfl, fun _ => ⟨_, rfl⟩, fun _ => ⟨_, rfl⟩, by decide, by decide, by decide, by decide,
    by decide⟩

/-! ## The requests handed to the transport -/

theorem consume_fields (req : http.Request) (n : Nat) :
    (req.consume n).Method = req.Method ∧ (req.consume n).URL = req.URL ∧
      (req.consume n).Header = req.Header ∧ (req.consume n).ContentLength = req.ContentLength := by
  unfold http.Request.consume
  split <;> simp

/-- Every pass of the loop hands the transport the request of the pass before,
with its body reader moved on. -/
theorem retryLoop_sent (client : http.Transport) (schedule : List time.Duration)
    (st : LoopState) :
    ∃ tail, sent (retryLoop client schedule st).trace = sent st.trace ++ tail ∧
      (∀ r ∈ tail, r.Method = st.req.Method ∧ r.URL = st.req.URL ∧ r.Header = st.req.Header ∧
        r.ContentLength = st.req.ContentLength) ∧
      (schedule ≠ [] → tail.head? = some st.req) ∧
      tail.length ≤ schedule.length := by
  induction schedule generalizing st with
  | nil => exact ⟨[], by simp [retryLoop]⟩
  | cons backoff rest ih =>
    cases hr : (client st.calls st.req).result with
    | ok response =>
      rw [retryLoop_ok client backoff rest st response hr]
      exact ⟨[st.req], by simp [sent_append, sent]⟩
    | error err =>
      rw [retryLoop_error client backoff rest st err hr]
      obtain ⟨tail, h1, h2, _, h4⟩ := ih
        { req := st.req.consume (client st.calls st.req).read
          response := none
          err := some err
          calls := st.calls + 1
          trace := st.trace ++
            [Event.Do st.req, Event.RequestError err, Event.Retrying backoff, Event.Sleep backoff] }
      obtain ⟨c1, c2, c3, c4⟩ := consume_fields st.req (client st.calls st.req).read
      refine ⟨st.req :: tail, ?_, ?_, ?_, ?_⟩
      · rw [h1]
        simp [sent_append, sent]
      · intro r hr'
        rcases List.mem_cons.mp hr' with rfl | hm
        · exact ⟨rfl, rfl, rfl, rfl⟩
        · obtain ⟨d1, d2, d3, d4⟩ := h2 r hm
          exact ⟨d1.trans c1, d2.trans c2, d3.trans c3, d4.trans c4⟩
      · intro _
        rfl
      · simpa using h4

theorem finish_sent (p : Request) (st : LoopState) : sent (p.finish st).trace = sent st.trace := by
  cases he : st.err with
  | some err =>
    rw [finish_fatal p st err he]
    simp [sent_append, sent]
  | none =>
    cases hr : st.response with
    | none => simp [Request.finish, he, hr]
    | some response =>
      rw [finish_response p st response he hr]
      cases response.Body.closeErr <;> simp [sent_append, sent]

/-- What `Request()` hands to the transport: when the construction gave `req`,
first `req` with the three headers, then at most two more times the same request
with its body reader moved on; nothing when the construction failed. -/
theorem Request_sent (urlParse : String → Except GoError url.URL) (client : http.Transport) (calls : Nat)
    (p : Request) :
    (∀ req, (p.construct urlParse).1 = .ok req →
      ∃ tail, sent (p.Request urlParse client calls).trace = p.setHeaders req :: tail ∧
        tail.length ≤ 2 ∧
        ∀ r ∈ tail, r.Method = req.Method ∧ r.URL = req.URL ∧
          r.Header = (p.setHeaders req).Header ∧ r.ContentLength = req.ContentLength) ∧
    (∀ err, (p.construct urlParse).1 = .error err → sent (p.Request urlParse client calls).trace = []) := by
  constructor
  · intro req hc
    rw [Request_of_construct_ok urlParse client calls p req hc, finish_sent]
    obtain ⟨tail, h1, h2, h3, h4⟩ := retryLoop_sent client backoffSchedule
      { req := p.setHeaders req, response := none, err := none, calls := calls,
        trace := (p.construct urlParse).2 }
    rw [h1]
    simp only [(construct_no_effects urlParse p).1, List.nil_append]
    cases tail with
    | nil => simp [backoffSchedule] at h3
    | cons r0 tail =>
      have h0 : r0 = p.setHeaders req := by simpa [backoffSchedule] using h3
      subst h0
      refine ⟨tail, rfl, ?_, ?_⟩
      · simpa [backoffSchedule] using h4
      · intro r hr
        obtain ⟨d1, d2, d3, d4⟩ := h2 r (List.mem_cons_of_mem _ hr)
        exact ⟨d1, d2, d3, d4⟩
  · intro err hc
    rw [Request_of_construct_error urlParse client calls p err hc]
    exact (construct_no_effects urlParse p).1

theorem construct_ok_fields (urlParse : String → Except GoError url.URL) (p : Request)
    (req : http.Request) (hc : (p.construct urlParse).1 = .ok req) :
    ∃ u, http.validMethod (if p.RequestMethod = "" then "GET" else p.RequestMethod) = true ∧
      urlParse (p.HSBaseUrl ++ "/" ++ p.requestString) = .ok u ∧
      req =
        { Method := if p.RequestMethod = "" then "GET" else p.RequestMethod
          URL := { u with Host := http.removeEmptyPort u.Host }
          Header := []
          Body := match p.JsonBody with
            | none => http.Body.nil
            | some v => if v.Len = 0 then http.Body.NoBody else http.Body.reader v
          ContentLength := match p.JsonBody with
            | none => 0
            | some v => v.Len
          Host := http.removeEmptyPort u.Host } := by
  rcases construct_cases urlParse p with ⟨u, hv, hu, h⟩ | ⟨err, _, h⟩
  · rw [h] at hc
    simp only [Except.ok.injEq] at hc
    exact ⟨u, hv, hu, hc.symm⟩
  · rw [h] at hc
    cases hc

theorem construct_ok_of_parse (urlParse : String → Except GoError url.URL) (p : Request)
    (u : url.URL)
    (hv : http.validMethod (if p.RequestMethod = "" then "GET" else p.RequestMethod) = true)
    (hu : urlParse (p.HSBaseUrl ++ "/" ++ p.requestString) = .ok u) :
    ∃ req, (p.construct urlParse).1 = .ok req ∧
      req.URL = { u with Host := http.removeEmptyPort u.Host } := by
  rcases construct_cases urlParse p with ⟨u2, _, hu2, h⟩ | ⟨err, hbad, h⟩
  · rw [hu] at hu2
    have e : u2 = u := (Except.ok.inj hu2).symm
    subst e
    rw [h]
    exact ⟨_, rfl, rfl⟩
  · rcases hbad with ⟨hv2, _⟩ | ⟨_, hu2⟩
    · rw [hv] at hv2
      cases hv2
    · rw [hu] at hu2
      cases hu2

theorem setHeaders_Header (p : Request) (req : http.Request) (h : req.Header = []) :
    (p.setHeaders req).Header = fixedHeaders p.HSToken := by
  simp [Request.setHeaders, h, http.Header.Set, url.Values.Put, fixedHeaders]

theorem setHeaders_fields (p : Request) (req : http.Request) :
    (p.setHeaders req).Method = req.Method ∧ (p.setHeaders req).URL = req.URL ∧
      (p.setHeaders req).Body = req.Body ∧ (p.setHeaders req).ContentLength = req.ContentLength := by
  simp [Request.setHeaders]

/-- What the construction gave is what every attempt sends, up to the body
reader. -/
theorem Request_sent_fields (urlParse : String → Except GoError url.URL)
    (client : http.Transport) (calls : Nat) (p : Request) (r : http.Request)
    (hr : r ∈ sent (p.Request urlParse client calls).trace) :
    r.Method = (if p.RequestMethod = "" then "GET" else p.RequestMethod) ∧
      (∃ u, urlParse (p.HSBaseUrl ++ "/" ++ p.requestString) = .ok u ∧
        r.URL = { u with Host := http.removeEmptyPort u.Host }) ∧
      r.Header = fixedHeaders p.HSToken := by
  cases hc : (p.construct urlParse).1 with
  | error err =>
    rw [(Request_sent urlParse client calls p).2 err hc] at hr
    cases hr
  | ok req =>
    obtain ⟨tail, h1, _, h3⟩ := (Request_sent urlParse client calls p).1 req hc
    obtain ⟨u, _, hu, hf⟩ := construct_ok_fields urlParse p req hc
    have hh : (p.setHeaders req).Header = fixedHeaders p.HSToken :=
      setHeaders_Header p req (by rw [hf])
    obtain ⟨s1, s2, _, _⟩ := setHeaders_fields p req
    have hm : req.Method = (if p.RequestMethod = "" then "GET" else p.RequestMethod) := by rw [hf]
    have hurl : req.URL = { u with Host := http.removeEmptyPort u.Host } := by rw [hf]
    rw [h1] at hr
    rcases List.mem_cons.mp hr with rfl | hm'
    · exact ⟨s1.trans hm, ⟨u, hu, s2.trans hurl⟩, hh⟩
    · obtain ⟨d1, d2, d3, _⟩ := h3 r hm'
      exact ⟨d1.trans hm, ⟨u, hu, d2.trans hurl⟩, d3.trans hh⟩

/-- C8: every request handed to the transport, on every attempt, carries the
three fixed headers, each with its single value, and no other header. -/
theorem Request_headers {α : Type} (marshal : α → Except GoError (List UInt8))
    (urlParse : String → Except GoError url.URL) (client : http.Transport) (calls : Nat)
    (hsBaseUrl hsToken : String) (chain : List (Config α)) (p : Request)
    (h : configure marshal (Init hsBaseUrl hsToken) chain = .ok p) :
    (∀ r ∈ sent (p.Request urlParse client calls).trace,
      r.Header = fixedHeaders hsToken ∧
      r.Header.Values "Content-Type" = ["application/json"] ∧
      r.Header.Values "Accept" = ["application/json"] ∧
      r.Header.Values "Authorization" = ["Bearer " ++ hsToken]) ∧
    (∀ req, (p.construct urlParse).1 = .ok req →
      sent (p.Request urlParse client calls).trace ≠ []) := by
  obtain ⟨_, _, _, ht⟩ := configure_Init_params marshal hsBaseUrl hsToken chain p h
  constructor
  · intro r hr
    obtain ⟨_, _, hh⟩ := Request_sent_fields urlParse client calls p r hr
    rw [ht] at hh
    rw [hh]
    refine ⟨rfl, ?_, ?_, ?_⟩ <;>
      simp [http.Header.Values, url.Values.Get, fixedHeaders, List.lookup]
  · intro req hc
    obtain ⟨tail, h1, _⟩ := (Request_sent urlParse client calls p).1 req hc
    rw [h1]
    exact List.cons_ne_nil _ _

/-! ## The URL -/

theorem intercalate_go_length (l : List String) (acc sep : String) :
    acc.length ≤ (String.intercalate.go acc sep l).length := by
  induction l generalizing acc with
  | nil => simp [String.intercalate.go]
  | cons a l ih =>
    simp only [String.intercalate.go]
    refine le_trans ?_ (ih _)
    simp only [String.length_append]
    omega

theorem Encode_length_pos_iff (v : url.Values) : v.Encode.length > 0 ↔ v.encodedPairs ≠ [] := by
  rw [Encode_eq_intercalate]
  cases h : v.encodedPairs with
  | nil => simp [String.intercalate]
  | cons kv l =>
    simp only [List.map_cons, String.intercalate, ne_eq, reduceCtorEq, not_false_eq_true, iff_true]
    exact lt_of_lt_of_le (item_length_pos kv) (intercalate_go_length _ _ _)

theorem Config_apply_endpoint {α : Type} (marshal : α → Except GoError (List UInt8))
    (c : Config α) (p q : Request) (h : c.apply marshal p = .ok q) :
    q.UriEndPoint = lastEndPoint p.UriEndPoint [c] := by
  cases c <;> simp only [Config.apply, Except.ok.injEq, Request.Json] at h
  case QueryParams qp => subst h; rw [QueryParams_eq]; rfl
  case Json body =>
    split at h
    · cases h
    · simp only [Except.ok.injEq] at h
      subst h
      rfl
  all_goals (subst h; rfl)

theorem configure_endpoint {α : Type} (marshal : α → Except GoError (List UInt8))
    (chain : List (Config α)) (p q : Request) (h : configure marshal p chain = .ok q) :
    q.UriEndPoint = lastEndPoint p.UriEndPoint chain := by
  induction chain generalizing p with
  | nil =>
    simp only [configure, Except.ok.injEq] at h
    subst h
    rfl
  | cons c chain ih =>
    simp only [configure] at h
    split at h
    · cases h
    · rename_i r hr
      rw [ih r h, Config_apply_endpoint marshal c p r hr]
      rfl

/-- C7, amended: the string `Request()` hands to `http.NewRequest` is the base
URL, `/`, the endpoint and, exactly when a query parameter was added, `?` and
the encoded query string; the URL of the request built and of every request sent
is what `url.Parse` makes of that string, with an empty port removed from the
host; and the request is built and sent whenever the method is a token and the
string parses. -/
theorem Request_URL {α : Type} (marshal : α → Except GoError (List UInt8))
    (urlParse : String → Except GoError url.URL) (client : http.Transport) (calls : Nat)
    (hsBaseUrl hsToken : String) (chain : List (Config α)) (p : Request)
    (h : configure marshal (Init hsBaseUrl hsToken) chain = .ok p) :
    (added chain = [] → (CreateRequest p.requestString p.HSBaseUrl).1 =
      hsBaseUrl ++ "/" ++ lastEndPoint "" chain) ∧
    (added chain ≠ [] → (CreateRequest p.requestString p.HSBaseUrl).1 =
      hsBaseUrl ++ "/" ++ lastEndPoint "" chain ++ "?" ++ p.Params.Encode ∧
      p.Params.Encode ≠ "") ∧
    (∀ req, (p.construct urlParse).1 = .ok req →
      ∃ u, urlParse (CreateRequest p.requestString p.HSBaseUrl).1 = .ok u ∧
        req.URL = { u with Host := http.removeEmptyPort u.Host }) ∧
    (∀ r ∈ sent (p.Request urlParse client calls).trace,
      ∃ u, urlParse (CreateRequest p.requestString p.HSBaseUrl).1 = .ok u ∧
        r.URL = { u with Host := http.removeEmptyPort u.Host }) ∧
    (∀ u, http.validMethod (if p.RequestMethod = "" then "GET" else p.RequestMethod) = true →
      urlParse (CreateRequest p.requestString p.HSBaseUrl).1 = .ok u →
      ∃ r0 tail, sent (p.Request urlParse client calls).trace = r0 :: tail ∧
        r0.URL = { u with Host := http.removeEmptyPort u.Host }) := by
  obtain ⟨hn, hp, hb, _⟩ := configure_Init_params marshal hsBaseUrl hsToken chain p h
  have he : p.UriEndPoint = lastEndPoint "" chain := configure_endpoint marshal chain _ p h
  have hperm := (encodedPairs_perm p.Params hn).trans hp
  refine ⟨?_, ?_, ?_, ?_, ?_⟩
  · intro ha
    have hnil : p.Params.encodedPairs = [] := by
      rw [ha] at hperm
      exact hperm.eq_nil
    have hl : ¬ p.Params.Encode.length > 0 := by
      rw [Encode_length_pos_iff]
      simp [hnil]
    simp [CreateRequest, Request.requestString, hl, hb, he]
  · intro ha
    have hne : p.Params.encodedPairs ≠ [] := by
      intro h0
      rw [h0] at hperm
      exact ha hperm.symm.eq_nil
    have hl : p.Params.Encode.length > 0 := (Encode_length_pos_iff _).mpr hne
    constructor
    · simp [CreateRequest, Request.requestString, hl, hb, he, String.append_assoc]
    · intro h0
      rw [h0] at hl
      exact absurd hl (by decide)
  · intro req hc
    obtain ⟨u, _, hu, hf⟩ := construct_ok_fields urlParse p req hc
    exact ⟨u, hu, by rw [hf]⟩
  · intro r hr
    exact (Request_sent_fields urlParse client calls p r hr).2.1
  · intro u hv hu
    obtain ⟨req, hc, hurl⟩ := construct_ok_of_parse urlParse p u hv hu
    obtain ⟨tail, h1, _⟩ := (Request_sent urlParse client calls p).1 req hc
    exact ⟨p.setHeaders req, tail, h1, (setHeaders_fields p req).2.1.trans hurl⟩

/-! ## The body -/

theorem lastJson_cons {α : Type} (j : Option α) (c : Config α) (chain : List (Config α)) :
    lastJson j (c :: chain) =
      lastJson (match c with
        | .Json body => some body
        | _ => j) chain := by
  simp [lastJson]

theorem configure_json {α : Type} (marshal : α → Except GoError (List UInt8))
    (chain : List (Config α)) (p q : Request) (h : configure marshal p chain = .ok q)
    (j : Option α)
    (hj : match j with
      | none => p.JsonBody = none
      | some v => ∃ bs, marshal v = .ok bs ∧ p.JsonBody = some (bytes.NewReader bs)) :
    match lastJson j chain with
    | none => q.JsonBody = none
    | some v => ∃ bs, marshal v = .ok bs ∧ q.JsonBody = some (bytes.NewReader bs) := by
  induction chain generalizing p j with
  | nil =>
    simp only [configure, Except.ok.injEq] at h
    subst h
    simpa [lastJson] using hj
  | cons c chain ih =>
    simp only [configure] at h
    split at h
    · cases h
    · rename_i r hr
      rw [lastJson_cons]
      apply ih r h
      cases c <;> simp only [Config.apply, Except.ok.injEq, Request.Json] at hr
      case QueryParams qp => subst hr; rw [QueryParams_eq]; exact hj
      case Json body =>
        split at hr
        · cases hr
        · rename_i bs hm
          simp only [Except.ok.injEq] at hr
          subst hr
          exact ⟨bs, hm, rfl⟩
      all_goals (subst hr; exact hj)

theorem NewReader_body (bs : List UInt8) (req : http.Request)
    (hb : req.Body = if (bytes.NewReader bs).Len = 0 then http.Body.NoBody
      else http.Body.reader (bytes.NewReader bs)) :
    req.bodyBytes = bs ∧ (bytes.NewReader bs).Len = bs.length := by
  cases bs with
  | nil =>
    simp only [bytes.NewReader, bytes.Reader.Len] at hb
    simp [bytes.NewReader, bytes.Reader.Len, http.Request.bodyBytes, hb]
  | cons b bs =>
    simp only [bytes.NewReader, bytes.Reader.Len] at hb
    simp [bytes.NewReader, bytes.Reader.Len, http.Request.bodyBytes, bytes.Reader.unread, hb]

/-- The first attempt of an execution carries no body when `Json` was never
called, and otherwise exactly the bytes the serializer gave for the value of the
last `Json` call. -/
theorem Request_first_attempt_body {α : Type} (marshal : α → Except GoError (List UInt8))
    (urlParse : String → Except GoError url.URL) (client : http.Transport)
    (calls : Nat) (hsBaseUrl hsToken : String) (chain : List (Config α)) (p : Request)
    (h : configure marshal (Init hsBaseUrl hsToken) chain = .ok p) :
    ∀ r0 tail, sent (p.Request urlParse client calls).trace = r0 :: tail →
      (lastJson none chain = none →
        r0.Body = http.Body.nil ∧ r0.bodyBytes = [] ∧ r0.ContentLength = 0) ∧
      (∀ v, lastJson none chain = some v →
        ∃ bs, marshal v = .ok bs ∧ r0.bodyBytes = bs ∧ r0.ContentLength = bs.length) := by
  have hj := configure_json marshal chain (Init hsBaseUrl hsToken) p h none rfl
  intro r0 tail0 hs
  cases hc : (p.construct urlParse).1 with
  | error err =>
    rw [(Request_sent urlParse client calls p).2 err hc] at hs
    cases hs
  | ok req =>
    obtain ⟨tail, h1, _⟩ := (Request_sent urlParse client calls p).1 req hc
    rw [h1] at hs
    obtain ⟨hr0, _⟩ := List.cons.inj hs
    subst hr0
    obtain ⟨u, _, _, hf⟩ := construct_ok_fields urlParse p req hc
    obtain ⟨_, _, s3, s4⟩ := setHeaders_fields p req
    refine ⟨?_, ?_⟩
    · intro hn
      rw [hn] at hj
      simp only at hj
      have hb : req.Body = http.Body.nil := by rw [hf, hj]
      have hl : req.ContentLength = 0 := by rw [hf, hj]
      refine ⟨s3.trans hb, ?_, s4.trans hl⟩
      simp [http.Request.bodyBytes, s3, hb]
    · intro v hv
      rw [hv] at hj
      obtain ⟨bs, hm, hjb⟩ := hj
      have hb : req.Body = if (bytes.NewReader bs).Len = 0 then http.Body.NoBody
          else http.Body.reader (bytes.NewReader bs) := by rw [hf, hjb]
      have hl : req.ContentLength = (bytes.NewReader bs).Len := by rw [hf, hjb]
      obtain ⟨n1, n2⟩ := NewReader_body bs (p.setHeaders req) (s3.trans hb)
      exact ⟨bs, hm, n1, by rw [s4, hl, n2]⟩

/-- C9: after `Json(true)`, on a transport that reads the request body and then
fails, the first attempt of the first execution carries the four bytes of
`true`; the two retries hand over the same request, still with content length 4,
and with no body bytes left. -/
theorem Request_retry_sends_no_body :
    configure marshalBool (Init "https://api.hubapi.com" "secret") postChain = .ok posted ∧
    lastJson none postChain = some true ∧
    marshalBool true = .ok [116, 114, 117, 101] ∧
    failsAt readThenFail 0 ∧ failsAt readThenFail 1 ∧ failsAt readThenFail 2 ∧
    (sent (posted.Request sampleParse readThenFail 0).trace).map http.Request.bodyBytes
      = [[116, 114, 117, 101], [], []] ∧
    (sent (posted.Request sampleParse readThenFail 0).trace).map http.Request.ContentLength
      = [4, 4, 4] ∧
    (sent (posted.Request sampleParse readThenFail 0).trace).map http.Request.Body
      = [http.Body.reader { s := [116, 114, 117, 101], i := 0 },
         http.Body.reader { s := [116, 114, 117, 101], i := 4 },
         http.Body.reader { s := [116, 114, 117, 101], i := 4 }] ∧
    (posted.Request sampleParse readThenFail 0).outcome = Outcome.fatal connectionReset :=
  ⟨rfl, rfl, rfl, fun _ => ⟨connectionReset, rfl⟩, fun _ => ⟨connectionReset, rfl⟩,
    fun _ => ⟨connectionReset, rfl⟩, by decide, by decide, by decide, by decide⟩

/-! ## The items of the query string -/

theorem fields_no_sep (sep : Char) (a : List Char) (h : sep ∉ a) : fields sep a = [a] := by
  induction a with
  | nil => rfl
  | cons c a ih =>
    simp only [List.mem_cons, not_or] at h
    have hc : ¬ c = sep := fun e => h.1 e.symm
    simp [fields, hc, ih h.2]

theorem fields_append_sep (sep : Char) (a rest : List Char) (h : sep ∉ a) :
    fields sep (a ++ sep :: rest) = a :: fields sep rest := by
  induction a with
  | nil => simp [fields]
  | cons c a ih =>
    simp only [List.mem_cons, not_or] at h
    have hc : ¬ c = sep := fun e => h.1 e.symm
    simp [fields, hc, ih h.2]

theorem fields_joined (sep : Char) (l : List (List Char)) (acc : List Char) (hacc : sep ∉ acc)
    (hl : ∀ x ∈ l, sep ∉ x) :
    fields sep (acc ++ l.flatMap (fun x => sep :: x)) = acc :: l := by
  induction l generalizing acc with
  | nil => simpa using fields_no_sep sep acc hacc
  | cons x l ih =>
    simp only [List.flatMap_cons, List.cons_append]
    rw [fields_append_sep sep acc _ hacc]
    rw [ih x (hl x (List.mem_cons_self _ _)) (fun y hy => hl y (List.mem_cons_of_mem _ hy))]

theorem intercalate_go_data (l : List String) (acc : String) :
    (String.intercalate.go acc "&" l).data =
      acc.data ++ (l.map String.data).flatMap (fun x => '&' :: x) := by
  induction l generalizing acc with
  | nil => simp [String.intercalate.go]
  | cons a l ih =>
    simp only [String.intercalate.go, ih, String.data_append, List.map_cons, List.flatMap_cons,
      List.append_assoc]
    rfl

theorem queryItems_intercalate (l : List (String × String)) :
    queryItems ("&".intercalate (l.map item)) = l.map item := by
  cases l with
  | nil => simp [String.intercalate, queryItems]
  | cons kv l =>
    have hpos : ("&".intercalate ((kv :: l).map item)).length > 0 := by
      simp only [List.map_cons, String.intercalate]
      exact lt_of_lt_of_le (item_length_pos kv) (intercalate_go_length _ _ _)
    have hne : ¬ "&".intercalate ((kv :: l).map item) = "" := by
      intro h0
      rw [h0] at hpos
      exact absurd hpos (by decide)
    simp only [queryItems, hne, if_false]
    simp only [List.map_cons, String.intercalate, intercalate_go_data]
    rw [fields_joined '&' _ _ (item_no_amp kv)]
    · simp [Function.comp_def]
    · intro x hx
      simp only [List.mem_map] at hx
      obtain ⟨y, ⟨z, _, rfl⟩, rfl⟩ := hx
      exact item_no_amp z

theorem escapeByte_decodes_fin : ∀ n : Fin 256,
    (url.escapeByte (UInt8.mk (BitVec.ofFin n)) = ['+'] ∧ UInt8.mk (BitVec.ofFin n) = 32) ∨
    (url.escapeByte (UInt8.mk (BitVec.ofFin n)) =
        ['%', url.upperhex ((UInt8.mk (BitVec.ofFin n)).toNat / 16),
          url.upperhex ((UInt8.mk (BitVec.ofFin n)).toNat % 16)] ∧
      UInt8.ofNat (unhex (url.upperhex ((UInt8.mk (BitVec.ofFin n)).toNat / 16)) * 16 +
        unhex (url.upperhex ((UInt8.mk (BitVec.ofFin n)).toNat % 16))) = UInt8.mk (BitVec.ofFin n)) ∨
    (url.escapeByte (UInt8.mk (BitVec.ofFin n)) = [Char.ofNat (UInt8.mk (BitVec.ofFin n)).toNat] ∧
      Char.ofNat (UInt8.mk (BitVec.ofFin n)).toNat ≠ '+' ∧
      Char.ofNat (UInt8.mk (BitVec.ofFin n)).toNat ≠ '%' ∧
      UInt8.ofNat (Char.ofNat (UInt8.mk (BitVec.ofFin n)).toNat).toNat
        = UInt8.mk (BitVec.ofFin n)) := by
  decide

theorem unescape_escapeByte (c : UInt8) (rest : List Char) :
    unescape (url.escapeByte c ++ rest) = c :: unescape rest := by
  rcases escapeByte_decodes_fin c.toBitVec.toFin with ⟨h1, h2⟩ | ⟨h1, h2⟩ | ⟨h1, h2, h3, h4⟩
  · have e1 : url.escapeByte c = ['+'] := h1
    have e2 : c = 32 := h2
    rw [e1, e2]
    cases rest with
    | nil => simp [unescape]
    | cons d rest =>
      cases rest with
      | nil => simp [unescape]
      | cons e rest => simp [unescape]
  · have e1 : url.escapeByte c = ['%', url.upperhex (c.toNat / 16), url.upperhex (c.toNat % 16)] := h1
    have e2 : UInt8.ofNat (unhex (url.upperhex (c.toNat / 16)) * 16 +
        unhex (url.upperhex (c.toNat % 16))) = c := h2
    rw [e1]
    simp only [List.cons_append, List.nil_append, unescape, e2]
    simp
  · have e1 : url.escapeByte c = [Char.ofNat c.toNat] := h1
    have e2 : Char.ofNat c.toNat ≠ '+' := h2
    have e3 : Char.ofNat c.toNat ≠ '%' := h3
    have e4 : UInt8.ofNat (Char.ofNat c.toNat).toNat = c := h4
    rw [e1]
    cases rest with
    | nil => simp [unescape, e2, e4]
    | cons d rest =>
      cases rest with
      | nil => simp [unescape, e2, e4]
      | cons e rest => simp [unescape, e2, e3, e4]

theorem unescape_QueryEscape (s : String) : unescape (url.QueryEscape s).data = bytesOf s := by
  simp only [url.QueryEscape]
  generalize bytesOf s = l
  induction l with
  | nil => simp [unescape]
  | cons c l ih =>
    simp only [List.flatMap_cons]
    rw [unescape_escapeByte, ih]

theorem escapeByte_no_eq_fin :
    ∀ n : Fin 256, '=' ∉ url.escapeByte (UInt8.mk (BitVec.ofFin n)) := by
  decide

theorem QueryEscape_no_eq (s : String) : '=' ∉ (url.QueryEscape s).data := by
  simp only [url.QueryEscape, List.mem_flatMap, not_exists, not_and]
  intro c _
  exact escapeByte_no_eq_fin c.toBitVec.toFin

/-- Two pairs with the same item have the same key and the same value, as byte
sequences. -/
theorem item_injective (kv kv2 : String × String) (h : item kv = item kv2) :
    bytesOf kv.1 = bytesOf kv2.1 ∧ bytesOf kv.2 = bytesOf kv2.2 := by
  have hd : (item kv).data = (item kv2).data := by rw [h]
  simp only [item, String.data_append, List.append_assoc] at hd
  simp only [List.singleton_append] at hd
  have hf := congrArg (fields '=') hd
  rw [fields_append_sep '=' _ _ (QueryEscape_no_eq kv.1),
    fields_append_sep '=' _ _ (QueryEscape_no_eq kv2.1)] at hf
  have h1 : (url.QueryEscape kv.1).data = (url.QueryEscape kv2.1).data := (List.cons.inj hf).1
  rw [h1] at hd
  have h2 : (url.QueryEscape kv.2).data = (url.QueryEscape kv2.2).data :=
    List.cons.inj (List.append_cancel_left hd) |>.2
  constructor
  · rw [← unescape_QueryEscape kv.1, ← unescape_QueryEscape kv2.1, h1]
  · rw [← unescape_QueryEscape kv.2, ← unescape_QueryEscape kv2.2, h2]

/-- C6: the `&`-separated items of the query string `Request()` appends are, up
to their order, the items `QueryEscape(key) + "=" + QueryEscape(value)` of the
pairs added, one item for every time a pair was added, and different pairs have
different items. -/
theorem Request_query_string {α : Type} (marshal : α → Except GoError (List UInt8))
    (hsBaseUrl hsToken : String) (chain : List (Config α)) (p : Request)
    (h : configure marshal (Init hsBaseUrl hsToken) chain = .ok p) :
    ∃ pairs : List (String × String),
      pairs.Perm (added chain) ∧
      (∀ kv, pairs.countP (fun x => decide (x = kv))
        = (added chain).countP (fun x => decide (x = kv))) ∧
      p.Params.Encode = "&".intercalate (pairs.map item) ∧
      queryItems p.Params.Encode = pairs.map item ∧
      (queryItems p.Params.Encode).Perm ((added chain).map item) ∧
      (∀ kv kv2 : String × String, item kv = item kv2 →
        bytesOf kv.1 = bytesOf kv2.1 ∧ bytesOf kv.2 = bytesOf kv2.2) ∧
      (added chain ≠ [] → p.requestString = p.UriEndPoint ++ "?" ++ p.Params.Encode) ∧
      (added chain = [] → p.requestString = p.UriEndPoint) := by
  obtain ⟨hn, hp, _, _⟩ := configure_Init_params marshal hsBaseUrl hsToken chain p h
  have hperm := (encodedPairs_perm p.Params hn).trans hp
  have hq : queryItems p.Params.Encode = p.Params.encodedPairs.map item := by
    rw [Encode_eq_intercalate, queryItems_intercalate]
  refine ⟨p.Params.encodedPairs, hperm, fun kv => hperm.countP_eq _, Encode_eq_intercalate _, hq,
    ?_, item_injective, ?_, ?_⟩
  · rw [hq]
    exact hperm.map item
  · intro ha
    have hne : p.Params.encodedPairs ≠ [] := by
      intro h0
      rw [h0] at hperm
      exact ha hperm.symm.eq_nil
    have hl : p.Params.Encode.length > 0 := (Encode_length_pos_iff _).mpr hne
    simp [Request.requestString, hl]
  · intro ha
    have hnil : p.Params.encodedPairs = [] := by
      rw [ha] at hperm
      exact hperm.eq_nil
    have hl : ¬ p.Params.Encode.length > 0 := by
      rw [Encode_length_pos_iff]
      simp [hnil]
    simp [Request.requestString, hl]

theorem Request_query_string_witness :
    configure marshalBool (Init "https://api.hubapi.com" "secret") sampleChain
      = .ok sampleBuilder ∧
    sampleBuilder.Params.Encode = "limit=10&limit=10&page=5&page=6&properties=email%2Cname&q=a+b" ∧
    ∃ pairs : List (String × String),
      pairs.Perm (added sampleChain) ∧
      (∀ kv, pairs.countP (fun x => decide (x = kv))
        = (added sampleChain).countP (fun x => decide (x = kv))) ∧
      sampleBuilder.Params.Encode = "&".intercalate (pairs.map item) ∧
      queryItems sampleBuilder.Params.Encode = pairs.map item ∧
      (queryItems sampleBuilder.Params.Encode).Perm ((added sampleChain).map item) ∧
      (∀ kv kv2 : String × String, item kv = item kv2 →
        bytesOf kv.1 = bytesOf kv2.1 ∧ bytesOf kv.2 = bytesOf kv2.2) ∧
      (added sampleChain ≠ [] →
        sampleBuilder.requestString
          = sampleBuilder.UriEndPoint ++ "?" ++ sampleBuilder.Params.Encode) ∧
      (added sampleChain = [] → sampleBuilder.requestString = sampleBuilder.UriEndPoint) :=
  ⟨rfl, by decide,
    Request_query_string marshalBool "https://api.hubapi.com" "secret" sampleChain sampleBuilder
      rfl⟩

/-! ## Instances at concrete inputs -/

theorem Request_URL_witness :
    configure marshalBool (Init "https://api.hubapi.com" "secret") sampleChain
      = .ok sampleBuilder ∧
    (CreateRequest sampleBuilder.requestString sampleBuilder.HSBaseUrl).1 =
      "https://api.hubapi.com/crm/v3/objects/contacts?limit=10&limit=10&page=5&page=6&properties=email%2Cname&q=a+b" ∧
    (sent (sampleBuilder.Request sampleParse
      (failThenRespond 1 (sampleResponse 200 "200 OK" [123, 125])) 0).trace).map http.Request.URL
      = [{ contactsURL with
            RawQuery := "limit=10&limit=10&page=5&page=6&properties=email%2Cname&q=a+b" },
         { contactsURL with
            RawQuery := "limit=10&limit=10&page=5&page=6&properties=email%2Cname&q=a+b" }] ∧
    (added sampleChain ≠ [] →
      (CreateRequest sampleBuilder.requestString sampleBuilder.HSBaseUrl).1 =
        "https://api.hubapi.com" ++ "/" ++ lastEndPoint "" sampleChain ++ "?" ++
          sampleBuilder.Params.Encode ∧
      sampleBuilder.Params.Encode ≠ "") ∧
    (∀ r ∈ sent (sampleBuilder.Request sampleParse
        (failThenRespond 1 (sampleResponse 200 "200 OK" [123, 125])) 0).trace,
      ∃ u, sampleParse (CreateRequest sampleBuilder.requestString sampleBuilder.HSBaseUrl).1
          = .ok u ∧
        r.URL = { u with Host := http.removeEmptyPort u.Host }) :=
  have h := Request_URL marshalBool sampleParse
    (failThenRespond 1 (sampleResponse 200 "200 OK" [123, 125])) 0 "https://api.hubapi.com"
    "secret" sampleChain sampleBuilder rfl
  ⟨rfl, by decide, by decide, h.2.1, h.2.2.2.1⟩

/-- C7 as stated fails at two inputs.  After `EndPoint("a#frag")` and `Page(5)`
a query parameter was added and the string handed to `http.NewRequest` ends in
`?page=5`, but the URL of the request sent has an empty query: `page=5` is part
of its fragment.  On the base URL `https://api.hubapi.com:` the URL of the
request sent has the host `api.hubapi.com`, without the colon of the
concatenation, and is the URL sent for the base URL `https://api.hubapi.com`. -/
theorem Request_URL_counterexample :
    configure marshalBool (Init "https://api.hubapi.com" "secret") fragmentChain
      = .ok fragmentBuilder ∧
    added fragmentChain = [("page", "5")] ∧
    fragmentBuilder.Params.Encode = "page=5" ∧
    (CreateRequest fragmentBuilder.requestString fragmentBuilder.HSBaseUrl).1 =
      "https://api.hubapi.com/a#frag?page=5" ∧
    (sent (fragmentBuilder.Request sampleParse
      (failThenRespond 0 (sampleResponse 200 "200 OK" [123, 125])) 0).trace).map http.Request.URL
      = [{ contactsURL with Path := "/a", RawQuery := "", Fragment := "frag?page=5" }] ∧
    configure marshalBool (Init "https://api.hubapi.com:" "secret") emptyPortChain
      = .ok emptyPortBuilder ∧
    (CreateRequest emptyPortBuilder.requestString emptyPortBuilder.HSBaseUrl).1 =
      "https://api.hubapi.com:/crm/v3/objects/contacts" ∧
    (sent (emptyPortBuilder.Request sampleParse
      (failThenRespond 0 (sampleResponse 200 "200 OK" [123, 125])) 0).trace).map http.Request.URL
      = [{ contactsURL with Host := "api.hubapi.com" }] ∧
    (sent (emptyPortBuilder.Request sampleParse
      (failThenRespond 0 (sampleResponse 200 "200 OK" [123, 125])) 0).trace).map http.Request.URL
      = (sent (contacts.Request sampleParse
        (failThenRespond 0 (sampleResponse 200 "200 OK" [123, 125])) 0).trace).map
          http.Request.URL :=
  ⟨rfl, by decide, by decide, by decide, by decide, rfl, by decide, by decide, by decide⟩

theorem Request_headers_witness :
    configure marshalBool (Init "https://api.hubapi.com" "secret") postChain = .ok posted ∧
    (sent (posted.Request sampleParse
      (failThenRespond 2 (sampleResponse 200 "200 OK" [123, 125])) 0).trace).length = 3 ∧
    (∀ r ∈ sent (posted.Request sampleParse
        (failThenRespond 2 (sampleResponse 200 "200 OK" [123, 125])) 0).trace,
      r.Header = fixedHeaders "secret" ∧
      r.Header.Values "Content-Type" = ["application/json"] ∧
      r.Header.Values "Accept" = ["application/json"] ∧
      r.Header.Values "Authorization" = ["Bearer " ++ "secret"]) :=
  ⟨rfl, by decide,
    (Request_headers marshalBool sampleParse
      (failThenRespond 2 (sampleResponse 200 "200 OK" [123, 125])) 0 "https://api.hubapi.com"
      "secret" postChain posted rfl).1⟩

end HubspotClient
